import Mathlib

/-!
# natsrr: subject multiplexer and responder

A shallow embedding of `natsrr/responder.go`.

* Go maps (`nats.Header`, the registry `map[string]muxEntry`) are finite maps
  (`Finmap`): unordered, one value per key, extensional equality.
* A `*responder` that is mutated in place becomes explicit state passing: every
  operation takes the responder and returns the updated one.
* The transport (`nats.Msg.RespondMsg`, part of nats.go and not of this package)
  is a parameter: a verdict function that says whether a send fails, together
  with a log of every reply handed to it.
* Function values are nillable in Go, hence `HandlerFunc` is an `Option`.
* A byte slice is a list of bytes; the nil slice and the empty slice are both
  the empty list.
* A request is a value: handlers do not modify the `*nats.Msg` they receive.
* `SubjectMux.handler` and `SubjectMux.HandleFunc` are the functions without
  their lock calls. The lock calls are kept in `handlerLocked`,
  `MsgHandlerLocked` and `HandleFuncLocked`, and in `HandleFuncStep`, which runs
  `HandleFunc` one statement at a time so that goroutines can interleave.
  `sync.RWMutex` (Go runtime) is a reader count and a writer flag; statements of
  different goroutines interleave in any order, each statement being one step,
  and the test `mux.m == nil` and the `make` it guards are separate steps.
* `responder` holds the header of the pending reply as a value. `responderRef`
  holds it as Go does, as a reference into a heap of maps; the `load_` theorems
  show that the operations on `responderRef` are the operations on `responder`.
-/

namespace strconv

/-- The ASCII digit for `d < 10`: `byte('0' + d)`. -/
def digitChar (d : Nat) : Char := Char.ofNat (48 + d)

/-- Decimal digits of `n`, most significant first; `fuel` bounds the number of
divisions by ten (the loop `for u >= 10` of `strconv.formatBits`). -/
def formatBits : Nat → Nat → List Char
  | 0, _ => []
  | fuel + 1, u => if u < 10 then [digitChar u] else formatBits fuel (u / 10) ++ [digitChar (u % 10)]

/-- The characters of `strconv.Itoa i`: a minus sign for a negative number, then
the decimal digits of its magnitude. -/
def itoaChars (i : Int) : List Char :=
  if i < 0 then '-' :: formatBits (i.natAbs + 1) i.natAbs else formatBits (i.natAbs + 1) i.natAbs

/-- Go `strconv.Itoa`. Go's `int` is a 64-bit subrange of `Int`. -/
def Itoa (i : Int) : String := String.mk (itoaChars i)

/-- Value of a decimal digit character, `none` for any other character. -/
def digitVal (c : Char) : Option Nat :=
  if 48 ≤ c.toNat ∧ c.toNat ≤ 57 then some (c.toNat - 48) else none

/-- Reads a non-empty run of decimal digits, most significant first, onto the
accumulator `acc`. -/
def parseDigits : Nat → List Char → Option Nat
  | acc, [] => some acc
  | acc, c :: cs => match digitVal c with
    | some d => parseDigits (acc * 10 + d) cs
    | none => none

/-- Reads a decimal integer: an optional leading minus sign, then at least one
digit and nothing else. -/
def parseDecimal (s : String) : Option Int :=
  match s.data with
  | [] => none
  | c :: cs =>
    if c = '-' then
      if cs = [] then none else (parseDigits 0 cs).map (fun (n : Nat) => - Int.ofNat n)
    else (parseDigits 0 (c :: cs)).map (fun (n : Nat) => Int.ofNat n)

/-- A canonical run of decimal digits: not empty, digits only, and no leading
zero unless it is the single digit zero. -/
def canonicalDigits (ds : List Char) : Prop :=
  ds ≠ [] ∧ (∀ c ∈ ds, (digitVal c).isSome = true) ∧ (ds = ['0'] ∨ ds.head? ≠ some '0')

end strconv

namespace http

/-- Go `http.StatusOK`. -/
def StatusOK : Int := 200

/-- Go `http.StatusNotFound`. -/
def StatusNotFound : Int := 404

end http

namespace nats

/-- Go `nats.Header`, `map[string][]string`. -/
abbrev Header := Finmap (fun _ : String => List String)

/-- Go `nats.Header.Set`: `h[key] = []string{value}`, keys are case-sensitive. -/
def Header.Set (h : Header) (key value : String) : Header :=
  Finmap.insert key [value] h

/-- Go `nats.Msg`, the fields the package reads or writes. -/
structure Msg where
  Subject : String
  Reply : String
  Header : Header
  Data : List UInt8
deriving DecidableEq

/-- Go `nats.NewMsg`: a message for `subject` with an empty, non-nil header. -/
def NewMsg (subject : String) : Msg :=
  { Subject := subject, Reply := "", Header := ∅, Data := [] }

/-- What the transport answers to a send: given the replies handed to it so far,
the request and the reply, `none` when it accepts and `some e` for the error `e`. -/
abbrev Verdict := List Msg → Msg → Msg → Option String

/-- Go `(*nats.Msg).RespondMsg` seen from this package: the reply `msg` is handed
to the transport once (appended to the log `sent`) and the transport's error, if
any, is returned. -/
def Msg.RespondMsg (V : Verdict) (m : Msg) (msg : Msg) (sent : List Msg) :
    List Msg × Option String :=
  (sent ++ [msg], V sent m msg)

end nats

namespace natsrr

/-- Everything outside the responder that a handler can change: the log of
replies handed to the transport, oldest first, and the handler's own state. -/
structure World (υ : Type) where
  sent : List nats.Msg
  user : υ

/-- The `responder` struct: the request and the pending reply. -/
structure responder where
  msg : nats.Msg
  resp : nats.Msg
deriving DecidableEq

/-- Source: `newResponder`. -/
def newResponder (msg : nats.Msg) : responder :=
  let response : responder := { msg := msg, resp := nats.NewMsg msg.Reply }
  { response with resp := { response.resp with
      Header := response.resp.Header.Set "Status" (strconv.Itoa http.StatusOK) } }

/-- Source: `(*responder).SetStatus`. -/
def responder.SetStatus (r : responder) (statusCode : Int) : responder :=
  { r with resp := { r.resp with Header := r.resp.Header.Set "Status" (strconv.Itoa statusCode) } }

/-- Source: `(*responder).SetDescription`. -/
def responder.SetDescription (r : responder) (description : String) : responder :=
  { r with resp := { r.resp with Header := r.resp.Header.Set "Description" description } }

/-- Source: `(*responder).Respond`. Returns the updated responder, the updated
world and the error of the send. -/
def responder.Respond {υ : Type} (V : nats.Verdict) (r : responder) (data : List UInt8)
    (w : World υ) : responder × World υ × Option String :=
  let r1 : responder := { r with resp := { r.resp with Data := data } }
  let res := r1.msg.RespondMsg V r1.resp w.sent
  (r1, { w with sent := res.1 }, res.2)

/-- Source: `(*responder).Header`. -/
def responder.Header (r : responder) : nats.Header := r.resp.Header

/-- Source: `Error`. The error of `Respond` is dropped. -/
def Error {υ : Type} (V : nats.Verdict) (r : responder) (err : String) (code : Int)
    (w : World υ) : responder × World υ :=
  let r1 := r.SetStatus code
  let r2 := r1.SetDescription err
  let out := r2.Respond V [] w
  (out.1, out.2.1)

/-- A non-nil Go function of type `func(Responder, *nats.Msg)`: it may change
the responder it is given and the world. -/
abbrev Func (υ : Type) := responder → nats.Msg → World υ → responder × World υ

/-- Source: `HandlerFunc`; `none` is the nil function. -/
abbrev HandlerFunc (υ : Type) := Option (Func υ)

/-- Source: `HandlerFunc.HandleMsg`. Calling a nil function panics (`none`). -/
def HandlerFunc.HandleMsg {υ : Type} (f : HandlerFunc υ) (msg : nats.Msg) (w : World υ) :
    Option (World υ) :=
  match f with
  | none => none
  | some g => some (g (newResponder msg) msg w).2

/-- Source: `NotFound`. -/
def NotFound {υ : Type} (V : nats.Verdict) : Func υ :=
  fun r _msg w => Error V r "No messages" http.StatusNotFound w

/-- Source: `muxEntry`. -/
structure muxEntry (υ : Type) where
  h : HandlerFunc υ
  subj : String

/-- Source: `SubjectMux`. The map `m` is nil (`none`) until the first registration. -/
structure SubjectMux (υ : Type) where
  m : Option (Finmap (fun _ : String => muxEntry υ))

/-- Source: `NewSubjectMux`. -/
def NewSubjectMux {υ : Type} : SubjectMux υ := { m := none }

/-- The Go map read `mux.m[subj]`; reading a nil map finds nothing. -/
def SubjectMux.get {υ : Type} (mux : SubjectMux υ) (subj : String) : Option (muxEntry υ) :=
  match mux.m with
  | none => none
  | some m => m.lookup subj

/-- Source: `(*SubjectMux).handler`. -/
def SubjectMux.handler {υ : Type} (V : nats.Verdict) (mux : SubjectMux υ) (subj : String) :
    HandlerFunc υ :=
  match mux.get subj with
  | some v => v.h
  | none => some (NotFound V)

/-- Source: `(*SubjectMux).MsgHandler`. -/
def SubjectMux.MsgHandler {υ : Type} (V : nats.Verdict) (mux : SubjectMux υ) :
    nats.Msg → World υ → Option (World υ) :=
  fun msg w => (mux.handler V msg.Subject).HandleMsg msg w

/-- Source: `(*SubjectMux).HandleFunc`. Returns the mux after the call and the
panic value, if the call panicked. -/
def SubjectMux.HandleFunc {υ : Type} (mux : SubjectMux υ) (subj : String)
    (handler : HandlerFunc υ) : SubjectMux υ × Option String :=
  if subj = "" then (mux, some "natsrr: invalid pattern")
  else if handler.isNone then (mux, some "natsrr: nil handler")
  else
    let m := match mux.m with
      | none => (∅ : Finmap (fun _ : String => muxEntry υ))
      | some m => m
    let e : muxEntry υ := { h := handler, subj := subj }
    ({ m := some (m.insert subj e) }, none)

/-- Number of entries of the registry, `len(mux.m)`. -/
def SubjectMux.len {υ : Type} (mux : SubjectMux υ) : Nat :=
  match mux.m with
  | none => 0
  | some m => m.keys.card

/-- The mux states that `NewSubjectMux` and successful `HandleFunc` calls produce. -/
inductive Reachable {υ : Type} : SubjectMux υ → Prop
  | fresh : Reachable NewSubjectMux
  | register (mux : SubjectMux υ) (subj : String) (handler : HandlerFunc υ) :
      Reachable mux → (mux.HandleFunc subj handler).2 = none →
      Reachable (mux.HandleFunc subj handler).1

/-- A call of one of the two setters of the `Responder` interface. -/
inductive Setter
  | status (statusCode : Int)
  | description (description : String)
deriving DecidableEq

/-- Performs one setter call on the responder. -/
def Setter.apply (r : responder) : Setter → responder
  | Setter.status statusCode => r.SetStatus statusCode
  | Setter.description text => r.SetDescription text

/-- Performs the setter calls of `calls` on `r`, first to last. -/
def applySetters (r : responder) (calls : List Setter) : responder :=
  calls.foldl Setter.apply r

/-- The argument of the last `SetStatus` call in `calls`, if there is one. -/
def lastStatus (calls : List Setter) : Option Int :=
  (calls.filterMap (fun c => match c with
    | Setter.status statusCode => some statusCode
    | Setter.description _ => none)).getLast?

/-- The argument of the last `SetDescription` call in `calls`, if there is one. -/
def lastDescription (calls : List Setter) : Option String :=
  (calls.filterMap (fun c => match c with
    | Setter.status _ => none
    | Setter.description description => some description)).getLast?

/-- A call of one of the four methods of the `Responder` interface. -/
inductive Call
  | SetStatus (statusCode : Int)
  | SetDescription (description : String)
  | Header
  | Respond (data : List UInt8)
deriving DecidableEq

/-- Performs one interface call; results of the call are dropped, the responder
and the world after it are kept. -/
def Call.run {υ : Type} (V : nats.Verdict) (c : Call) (r : responder) (w : World υ) :
    responder × World υ :=
  match c with
  | Call.SetStatus statusCode => (r.SetStatus statusCode, w)
  | Call.SetDescription description => (r.SetDescription description, w)
  | Call.Header => (r, w)
  | Call.Respond data => ((r.Respond V data w).1, (r.Respond V data w).2.1)

/-- What the caller of an operation sees once it is over: the responder, the
replies handed to the transport, and the error returned to the caller (`none`
when no error is returned to it). -/
structure Outcome where
  r : responder
  sent : List nats.Msg
  err : Option String
deriving DecidableEq

/-- The outcome of `Error` for its caller. `Error` has no result, so no error is
returned. -/
def errorOutcome {υ : Type} (V : nats.Verdict) (r : responder) (err : String) (code : Int)
    (w : World υ) : Outcome :=
  { r := (Error V r err code w).1, sent := (Error V r err code w).2.sent, err := none }

/-- The outcome, for a caller that performs them itself, of the calls
`SetStatus(code)`, `SetDescription(err)`, `Respond(nil)`: the caller receives what
`Respond` returns. -/
def sequenceOutcome {υ : Type} (V : nats.Verdict) (r : responder) (err : String) (code : Int)
    (w : World υ) : Outcome :=
  { r := (((r.SetStatus code).SetDescription err).Respond V [] w).1,
    sent := (((r.SetStatus code).SetDescription err).Respond V [] w).2.1.sent,
    err := (((r.SetStatus code).SetDescription err).Respond V [] w).2.2 }

/-- The reply of a responder that is sent as constructed, with an empty payload. -/
def defaultReply (msg : nats.Msg) : nats.Msg :=
  { Subject := msg.Reply, Reply := "", Header := Finmap.singleton "Status" ["200"], Data := [] }

/-- A one-way request: it has no reply-target. -/
def oneWayMsg : nats.Msg :=
  { Subject := "orders.new", Reply := "", Header := ∅, Data := [] }

/-- The reply that `NotFound` sends for the request `msg`. -/
def notFoundReply (msg : nats.Msg) : nats.Msg :=
  { Subject := msg.Reply, Reply := "",
    Header := Finmap.insert "Description" ["No messages"] (Finmap.singleton "Status" ["404"]),
    Data := [] }

/-- A transport that refuses a request without a reply-target, as nats.go does. -/
def sampleVerdict : nats.Verdict :=
  fun _ m _ => if m.Reply = "" then some "nats: message does not have a reply" else none

/-- A handler that counts its invocations in the user state and sends nothing. -/
def countCall : Func Nat := fun r _ w => (r, { w with user := w.user + 1 })

/-- A handler that adds ten to the user state and sends nothing. -/
def addTen : Func Nat := fun r _ w => (r, { w with user := w.user + 10 })

/-- A request on `subject` that expects its reply on `_INBOX.1`. -/
def sampleMsg (subject : String) : nats.Msg :=
  { Subject := subject, Reply := "_INBOX.1", Header := ∅, Data := [1, 2, 3] }

/-- A world in which nothing has been sent. -/
def sampleWorld : World Nat := { sent := [], user := 0 }

/-- A mux with the single registration `orders.*`. -/
def sampleMux : SubjectMux Nat := (NewSubjectMux.HandleFunc "orders.*" (some countCall)).1

/-- The Go map assignment `r.Header()[key] = values`. `Header()` returns the map
of the pending reply itself and Go maps are references, so the assignment changes
the pending reply. -/
def responder.HeaderWrite (r : responder) (key : String) (values : List String) : responder :=
  { r with resp := { r.resp with Header := Finmap.insert key values r.Header } }

/-- The Go map deletion `delete(r.Header(), key)`, on the map of the pending reply. -/
def responder.HeaderDelete (r : responder) (key : String) : responder :=
  { r with resp := { r.resp with Header := Finmap.erase key r.Header } }

/-- An operation that a handler can perform on the responder it is given. -/
inductive Op
  | SetStatus (statusCode : Int)
  | SetDescription (description : String)
  | HeaderWrite (key : String) (values : List String)
  | HeaderDelete (key : String)
  | Respond (data : List UInt8)
  | Error (err : String) (code : Int)
  | NotFound
deriving DecidableEq

/-- Performs one operation; results of the operation are dropped, the responder
and the world after it are kept. -/
def Op.run {υ : Type} (V : nats.Verdict) (op : Op) (r : responder) (w : World υ) :
    responder × World υ :=
  match op with
  | Op.SetStatus statusCode => (r.SetStatus statusCode, w)
  | Op.SetDescription description => (r.SetDescription description, w)
  | Op.HeaderWrite key values => (r.HeaderWrite key values, w)
  | Op.HeaderDelete key => (r.HeaderDelete key, w)
  | Op.Respond data => ((r.Respond V data w).1, (r.Respond V data w).2.1)
  | Op.Error err code => natsrr.Error V r err code w
  | Op.NotFound => natsrr.NotFound V r r.msg w

/-- Performs the operations of `ops`, first to last. -/
def runOps {υ : Type} (V : nats.Verdict) : List Op → responder → World υ → responder × World υ
  | [], r, w => (r, w)
  | op :: ops, r, w => runOps V ops (op.run V r w).1 (op.run V r w).2

/-- Whether the operation writes or deletes the key `Status` directly on the map
returned by `Header()`. -/
def Op.touchesStatus : Op → Bool
  | Op.HeaderWrite key _ => key == "Status"
  | Op.HeaderDelete key => key == "Status"
  | _ => false

/-- A reply is well-formed when it carries a `Status` header whose value is a
decimal integer string. -/
def wellFormed (m : nats.Msg) : Prop :=
  ∃ v rest, m.Header.lookup "Status" = some (v :: rest) ∧ strconv.parseDecimal v ≠ none

/-- Performs `Respond` with each payload of `payloads`, first to last. -/
def respondAll {υ : Type} (V : nats.Verdict) : List (List UInt8) → responder → World υ →
    responder × World υ
  | [], r, w => (r, w)
  | data :: rest, r, w => respondAll V rest (r.Respond V data w).1 (r.Respond V data w).2.1

/-- The mux states that `NewSubjectMux` and `HandleFunc` calls produce, the calls
that panic included. -/
inductive ReachableAny {υ : Type} : SubjectMux υ → Prop
  | fresh : ReachableAny NewSubjectMux
  | call (mux : SubjectMux υ) (subj : String) (handler : HandlerFunc υ) :
      ReachableAny mux → ReachableAny (mux.HandleFunc subj handler).1

/-- A transport that refuses every send. -/
def brokenVerdict : nats.Verdict := fun _ _ _ => some "nats: connection closed"

end natsrr

namespace sync

/-- Go `sync.RWMutex` (Go runtime, outside the package): how many goroutines hold
it for reading and whether one holds it for writing. The zero value is unlocked. -/
structure RWMutex where
  readers : Nat
  writer : Bool
deriving DecidableEq

/-- The unlocked mutex, the zero value of `sync.RWMutex`. -/
def RWMutex.free : RWMutex := { readers := 0, writer := false }

/-- Go `RLock`: `none` when the caller has to wait because a writer holds the
mutex, else the mutex with one reader more. -/
def RWMutex.RLock (mu : RWMutex) : Option RWMutex :=
  if mu.writer then none else some { mu with readers := mu.readers + 1 }

/-- Go `RUnlock`: one reader less. -/
def RWMutex.RUnlock (mu : RWMutex) : RWMutex := { mu with readers := mu.readers - 1 }

/-- Go `Lock`: `none` when the caller has to wait because a writer or a reader
holds the mutex, else the mutex held for writing. -/
def RWMutex.Lock (mu : RWMutex) : Option RWMutex :=
  if mu.writer || mu.readers != 0 then none else some { mu with writer := true }

/-- Go `Unlock`: no writer any more. -/
def RWMutex.Unlock (mu : RWMutex) : RWMutex := { mu with writer := false }

end sync

namespace natsrr

/-- A call on the mutex `mux.mu` that has returned. -/
inductive LockCall
  | RLock
  | RUnlock
  | Lock
  | Unlock
deriving DecidableEq

/-- The mutex `mux.mu` as the code that runs on one goroutine meets it: its state,
the calls on it that have returned so far, oldest first, and the state of the
handlers. Handlers receive it as the user part of their world, so a handler can
call the mutex itself. -/
structure Locked (υ : Type) where
  mu : sync.RWMutex
  calls : List LockCall
  user : υ

/-- The call `mux.mu.RLock()`: `none` when it has to wait. -/
def Locked.RLock {υ : Type} (l : Locked υ) : Option (Locked υ) :=
  match l.mu.RLock with
  | none => none
  | some mu1 => some { l with mu := mu1, calls := l.calls ++ [LockCall.RLock] }

/-- The call `mux.mu.RUnlock()`. -/
def Locked.RUnlock {υ : Type} (l : Locked υ) : Locked υ :=
  { l with mu := l.mu.RUnlock, calls := l.calls ++ [LockCall.RUnlock] }

/-- The call `mux.mu.Lock()`: `none` when it has to wait. -/
def Locked.Lock {υ : Type} (l : Locked υ) : Option (Locked υ) :=
  match l.mu.Lock with
  | none => none
  | some mu1 => some { l with mu := mu1, calls := l.calls ++ [LockCall.Lock] }

/-- The call `mux.mu.Unlock()`. -/
def Locked.Unlock {υ : Type} (l : Locked υ) : Locked υ :=
  { l with mu := l.mu.Unlock, calls := l.calls ++ [LockCall.Unlock] }

/-- Source: `(*SubjectMux).handler` with its lock calls kept: `RLock` on entry, the
lookup, and the deferred `RUnlock` when the function returns. `none` when the call
has to wait; else the handler and the mutex as it is on return. -/
def SubjectMux.handlerLocked {υ ω : Type} (V : nats.Verdict) (mux : SubjectMux ω)
    (subj : String) (l : Locked υ) : Option (HandlerFunc ω × Locked υ) :=
  match l.RLock with
  | none => none
  | some l1 =>
    let h : HandlerFunc ω := match mux.get subj with
      | some v => v.h
      | none => some (NotFound V)
    some (h, l1.RUnlock)

/-- Source: the callback of `(*SubjectMux).MsgHandler` with the lock calls kept:
`mux.handler(msg.Subject)` runs and returns first, then `HandleMsg` runs the
handler, in the world as `handler` left it. `none` when the lookup has to wait or
the handler is nil. -/
def SubjectMux.MsgHandlerLocked {υ : Type} (V : nats.Verdict) (mux : SubjectMux (Locked υ))
    (msg : nats.Msg) (w : World (Locked υ)) : Option (World (Locked υ)) :=
  match mux.handlerLocked V msg.Subject w.user with
  | none => none
  | some out => out.1.HandleMsg msg { w with user := out.2 }

/-- Source: `(*SubjectMux).HandleFunc` with its lock calls kept: `Lock` on entry
and the deferred `Unlock` when the function returns or panics. `none` when the
call has to wait; else the mux, the panic value and the mutex after the call. -/
def SubjectMux.HandleFuncLocked {υ ω : Type} (mux : SubjectMux ω) (subj : String)
    (handler : HandlerFunc ω) (l : Locked υ) :
    Option (SubjectMux ω × Option String × Locked υ) :=
  match l.Lock with
  | none => none
  | some l1 =>
    some ((mux.HandleFunc subj handler).1, (mux.HandleFunc subj handler).2, l1.Unlock)

/-- A handler whose body is the call `mux.HandleFunc("billing", h)` on the mux
that dispatches to it. Whether that call waits depends on the mutex alone; the
handler notes in its state (`true`) when the call has to wait, and the registry
the call leaves is not kept. -/
def registerAgain : Func (Locked Bool) := fun r _ w =>
  match (NewSubjectMux : SubjectMux (Locked Bool)).HandleFuncLocked "billing"
      (some (fun r2 _ w2 => (r2, w2))) w.user with
  | none => (r, { w with user := { w.user with user := true } })
  | some out => (r, { w with user := out.2.2 })

/-- A mux whose handler for `orders.*` calls `HandleFunc` on the mux. -/
def lockedMux : SubjectMux (Locked Bool) :=
  (NewSubjectMux.HandleFunc "orders.*" (some registerAgain)).1

/-- A world in which nothing has been sent and the mutex is unlocked. -/
def lockedWorld : World (Locked Bool) :=
  { sent := [], user := { mu := sync.RWMutex.free, calls := [], user := false } }

/-- The Go heap of header maps. A Go map value is a reference to a map object:
`maps` gives the object behind each reference and `next` is the first reference
not in use. -/
structure Heap where
  maps : Nat → nats.Header
  next : Nat

/-- Go `make(nats.Header)`: a reference to a new, empty map object. -/
def Heap.make (hp : Heap) : Nat × Heap :=
  (hp.next, { maps := Function.update hp.maps hp.next ∅, next := hp.next + 1 })

/-- Go `h.Set(key, value)` on the map behind the reference `h`. -/
def Heap.Set (hp : Heap) (h : Nat) (key value : String) : Heap :=
  { hp with maps := Function.update hp.maps h ((hp.maps h).Set key value) }

/-- Go `h[key] = values` on the map behind the reference `h`. -/
def Heap.assign (hp : Heap) (h : Nat) (key : String) (values : List String) : Heap :=
  { hp with maps := Function.update hp.maps h (Finmap.insert key values (hp.maps h)) }

/-- Go `delete(h, key)` on the map behind the reference `h`. -/
def Heap.delete (hp : Heap) (h : Nat) (key : String) : Heap :=
  { hp with maps := Function.update hp.maps h (Finmap.erase key (hp.maps h)) }

/-- Go `h[key]` on the map behind the reference `h`. -/
def Heap.get (hp : Heap) (h : Nat) (key : String) : Option (List String) :=
  (hp.maps h).lookup key

/-- Go `nats.Msg` with its `Header` field as Go holds it: a reference to a map. -/
structure MsgRef where
  Subject : String
  Reply : String
  Header : Nat
  Data : List UInt8
deriving DecidableEq

/-- The message that a `MsgRef` stands for in a heap. -/
def MsgRef.load (m : MsgRef) (hp : Heap) : nats.Msg :=
  { Subject := m.Subject, Reply := m.Reply, Header := hp.maps m.Header, Data := m.Data }

/-- Go `nats.NewMsg` with the header map made on the heap. -/
def NewMsgRef (subject : String) (hp : Heap) : MsgRef × Heap :=
  ({ Subject := subject, Reply := "", Header := hp.make.1, Data := [] }, hp.make.2)

/-- The `responder` struct with the header of the pending reply held by reference. -/
structure responderRef where
  msg : nats.Msg
  resp : MsgRef
deriving DecidableEq

/-- The responder that a `responderRef` stands for in a heap. -/
def responderRef.load (r : responderRef) (hp : Heap) : responder :=
  { msg := r.msg, resp := r.resp.load hp }

/-- Source: `newResponder`, on the heap. -/
def newResponderRef (msg : nats.Msg) (hp : Heap) : responderRef × Heap :=
  ({ msg := msg, resp := (NewMsgRef msg.Reply hp).1 },
   (NewMsgRef msg.Reply hp).2.Set (NewMsgRef msg.Reply hp).1.Header "Status"
     (strconv.Itoa http.StatusOK))

/-- Source: `(*responder).SetStatus`, on the heap: the responder is untouched, the
map behind `r.resp.Header` changes. -/
def responderRef.SetStatus (r : responderRef) (statusCode : Int) (hp : Heap) : Heap :=
  hp.Set r.resp.Header "Status" (strconv.Itoa statusCode)

/-- Source: `(*responder).SetDescription`, on the heap. -/
def responderRef.SetDescription (r : responderRef) (description : String) (hp : Heap) : Heap :=
  hp.Set r.resp.Header "Description" description

/-- Source: `(*responder).Header`: `return r.resp.Header`, the reference itself. -/
def responderRef.Header (r : responderRef) : Nat := r.resp.Header

/-- Source: `(*responder).Respond`, on the heap: the transport receives the reply
as the heap holds it when the call is made. -/
def responderRef.Respond {υ : Type} (V : nats.Verdict) (r : responderRef) (data : List UInt8)
    (hp : Heap) (w : World υ) : responderRef × World υ × Option String :=
  let r1 : responderRef := { r with resp := { r.resp with Data := data } }
  let res := r1.msg.RespondMsg V (r1.resp.load hp) w.sent
  (r1, { w with sent := res.1 }, res.2)

/-- The statement of `HandleFunc` that a goroutine executes next: `mu.Lock()`,
the two panic checks, the test `mux.m == nil`, the `make` that the test guards,
the assignment `mux.m[subj] = e`, the deferred `mu.Unlock()`, or nothing any
more. -/
inductive Pc
  | lock
  | check
  | test
  | make
  | store
  | unlock
  | done
deriving DecidableEq

/-- What concurrent `HandleFunc` calls share, the mutex and the registry of the
mux, and what each goroutine has of its own: its next statement, what its test
`mux.m == nil` gave, and whether it has panicked. -/
structure Shared (υ : Type) where
  mu : sync.RWMutex
  mux : SubjectMux υ
  pc : Nat → Pc
  sawNil : Nat → Bool
  panicked : Nat → Bool

/-- The state in which no goroutine has started: the mutex is unlocked. -/
def Shared.start {υ : Type} (mux : SubjectMux υ) : Shared υ :=
  { mu := sync.RWMutex.free, mux := mux, pc := fun _ => Pc.lock, sawNil := fun _ => false,
    panicked := fun _ => false }

/-- One statement of `HandleFunc(subj, handler)` executed by goroutine `i`. A
goroutine waiting in `mu.Lock()` does not move. The test `mux.m == nil` and the
`make` it guards are two steps, so another goroutine can run between them unless
the mutex keeps it out. A panic skips to the deferred `mu.Unlock()`. -/
def HandleFuncStep {υ : Type} (subj : String) (handler : HandlerFunc υ) (i : Nat)
    (s : Shared υ) : Shared υ :=
  match s.pc i with
  | Pc.lock =>
    match s.mu.Lock with
    | none => s
    | some mu1 => { s with mu := mu1, pc := Function.update s.pc i Pc.check }
  | Pc.check =>
    if subj = "" then
      { s with pc := Function.update s.pc i Pc.unlock,
               panicked := Function.update s.panicked i true }
    else if handler.isNone then
      { s with pc := Function.update s.pc i Pc.unlock,
               panicked := Function.update s.panicked i true }
    else { s with pc := Function.update s.pc i Pc.test }
  | Pc.test =>
    { s with sawNil := Function.update s.sawNil i s.mux.m.isNone,
             pc := Function.update s.pc i Pc.make }
  | Pc.make =>
    if s.sawNil i then
      { s with mux := { m := some ∅ }, pc := Function.update s.pc i Pc.store }
    else { s with pc := Function.update s.pc i Pc.store }
  | Pc.store =>
    match s.mux.m with
    | none =>
      { s with pc := Function.update s.pc i Pc.unlock,
               panicked := Function.update s.panicked i true }
    | some m =>
      { s with mux := { m := some (m.insert subj { h := handler, subj := subj }) },
               pc := Function.update s.pc i Pc.unlock }
  | Pc.unlock => { s with mu := s.mu.Unlock, pc := Function.update s.pc i Pc.done }
  | Pc.done => s

/-- Runs a schedule: each entry names the goroutine that executes its next
statement; goroutine `i` runs the `i`-th call of `calls`. -/
def runSchedule {υ : Type} (calls : List (String × HandlerFunc υ)) :
    List Nat → Shared υ → Shared υ
  | [], s => s
  | i :: rest, s =>
    match calls[i]? with
    | none => runSchedule calls rest s
    | some c => runSchedule calls rest (HandleFuncStep c.1 c.2 i s)

/-- The calls of `calls` made one after the other with `SubjectMux.HandleFunc`. -/
def registerAll {υ : Type} (calls : List (String × HandlerFunc υ)) (mux0 : SubjectMux υ) :
    SubjectMux υ :=
  calls.foldl (fun mux c => (mux.HandleFunc c.1 c.2).1) mux0

/-- Whether a goroutine at this statement is outside the locked part of
`HandleFunc`: it has not taken the mutex yet or has given it back. -/
def Pc.idle : Pc → Bool
  | Pc.lock => true
  | Pc.done => true
  | _ => false

/-- How many statements a goroutine at this statement still has to execute. -/
def Pc.rank : Pc → Nat
  | Pc.lock => 6
  | Pc.check => 5
  | Pc.test => 4
  | Pc.make => 3
  | Pc.store => 2
  | Pc.unlock => 1
  | Pc.done => 0

/-- Mutual exclusion: no reader; an unlocked mutex means every goroutine is
outside the locked part; at most one goroutine is inside it, and a writer holds
the mutex exactly when one is. -/
structure LockInv (mu : sync.RWMutex) (pc : Nat → Pc) : Prop where
  readers : mu.readers = 0
  free : mu.writer = false → ∀ i, (pc i).idle = true
  excl : ∀ i j, (pc i).idle = false → (pc j).idle = false → i = j
  held : ∀ i, (pc i).idle = false → mu.writer = true
  owner : mu.writer = true → ∃ i, (pc i).idle = false

/-- What holds in every state of concurrent valid registrations that start from
the mux `mux0` with the mutex unlocked: mutual exclusion; only goroutines that
have a call move; no goroutine has panicked; a goroutine about to `make` has seen
nil exactly when the map is still nil; the map exists when a goroutine is about to
assign; the entry of every goroutine that has assigned is in the registry;
subjects that no goroutine registers are as in `mux0`. -/
structure Inv {υ : Type} (calls : List (String × HandlerFunc υ)) (mux0 : SubjectMux υ)
    (s : Shared υ) : Prop where
  lk : LockInv s.mu s.pc
  outside : ∀ i, calls[i]? = none → s.pc i = Pc.lock
  calm : ∀ i, s.panicked i = false
  seen : ∀ i, s.pc i = Pc.make → (s.sawNil i = true ↔ s.mux.m = none)
  made : ∀ i, s.pc i = Pc.store → s.mux.m ≠ none
  kept : ∀ i c, calls[i]? = some c → (s.pc i = Pc.unlock ∨ s.pc i = Pc.done) →
    s.mux.get c.1 = some { h := c.2, subj := c.1 }
  frame : ∀ k, k ∉ calls.map Prod.fst → s.mux.get k = mux0.get k

/-- Two registrations for the witnesses: `billing` and `audit`. -/
def sampleCalls : List (String × HandlerFunc Nat) :=
  [("billing", some addTen), ("audit", some countCall)]

/-- A schedule in which goroutine 1 takes the mutex first and goroutine 0 keeps
trying while it is held. -/
def sampleSchedule : List Nat := [1, 0, 1, 0, 1, 1, 0, 1, 1, 0, 0, 0, 0, 0, 0]

/-- A state that mutual exclusion rules out: both goroutines are past `mu.Lock()`
at the test `mux.m == nil`, on a registry that is still nil. -/
def racyState : Shared Nat :=
  { mu := sync.RWMutex.free, mux := NewSubjectMux, pc := fun _ => Pc.test,
    sawNil := fun _ => false, panicked := fun _ => false }

end natsrr

namespace natsrr

theorem get_HandleFunc_self {υ : Type} (mux : SubjectMux υ) (subj : String) (g : Func υ)
    (hs : subj ≠ "") :
    (mux.HandleFunc subj (some g)).1.get subj = some { h := some g, subj := subj } := by
  unfold SubjectMux.HandleFunc SubjectMux.get
  simp [hs, Finmap.lookup_insert]

theorem get_HandleFunc_ne {υ : Type} (mux : SubjectMux υ) (subj s : String)
    (handler : HandlerFunc υ) (hne : s ≠ subj) :
    (mux.HandleFunc subj handler).1.get s = mux.get s := by
  unfold SubjectMux.HandleFunc SubjectMux.get
  by_cases hs : subj = ""
  · simp [hs]
  · cases handler with
    | none => simp [hs]
    | some g =>
      cases hm : mux.m with
      | none => simp [hs, hm, Finmap.lookup_insert_of_ne _ hne]
      | some m => simp [hs, hm, Finmap.lookup_insert_of_ne _ hne]

theorem HandleFunc_panic_iff {υ : Type} (mux : SubjectMux υ) (subj : String)
    (handler : HandlerFunc υ) :
    (mux.HandleFunc subj handler).2 ≠ none ↔ (subj = "" ∨ handler = none) := by
  unfold SubjectMux.HandleFunc
  by_cases hs : subj = ""
  · simp [hs]
  · cases handler <;> simp [hs]

theorem HandleFunc_panic_state {υ : Type} (mux : SubjectMux υ) (subj : String)
    (handler : HandlerFunc υ) (hp : (mux.HandleFunc subj handler).2 ≠ none) :
    (mux.HandleFunc subj handler).1 = mux := by
  unfold SubjectMux.HandleFunc at hp ⊢
  by_cases hs : subj = ""
  · simp [hs]
  · cases handler with
    | none => simp [hs]
    | some g => simp [hs] at hp

/-- Every entry of a reachable mux holds a non-nil handler. -/
theorem Reachable.handler_ne_nil {υ : Type} {mux : SubjectMux υ} (hr : Reachable mux) :
    ∀ s e, mux.get s = some e → ∃ g, e.h = some g := by
  induction hr with
  | fresh => intro s e h; simp [NewSubjectMux, SubjectMux.get] at h
  | register mux subj handler _ hok ih =>
    intro s e h
    have hnp : ¬ (subj = "" ∨ handler = none) := by
      rw [← HandleFunc_panic_iff mux subj handler]; simp [hok]
    push_neg at hnp
    obtain ⟨g, rfl⟩ := Option.ne_none_iff_exists'.mp hnp.2
    by_cases hsame : s = subj
    · subst hsame
      rw [get_HandleFunc_self mux s g hnp.1] at h
      cases h
      exact ⟨g, rfl⟩
    · rw [get_HandleFunc_ne mux subj s _ hsame] at h
      exact ih s e h

theorem Header.lookup_Set_self (h : nats.Header) (key value : String) :
    (h.Set key value).lookup key = some [value] := by
  simp [nats.Header.Set, Finmap.lookup_insert]

theorem Header.lookup_Set_ne (h : nats.Header) (key value k : String) (hne : k ≠ key) :
    (h.Set key value).lookup k = h.lookup k := by
  simp [nats.Header.Set, Finmap.lookup_insert_of_ne _ hne]

theorem Header.Set_Set (h : nats.Header) (key v1 v2 : String) :
    (h.Set key v1).Set key v2 = h.Set key v2 := by
  simp [nats.Header.Set, Finmap.insert_insert]

theorem Header.Set_comm (h : nats.Header) (k1 k2 v1 v2 : String) (hne : k1 ≠ k2) :
    (h.Set k1 v1).Set k2 v2 = (h.Set k2 v2).Set k1 v1 := by
  unfold nats.Header.Set
  exact Finmap.insert_insert_of_ne h hne

theorem Header.Set_empty (key value : String) :
    (∅ : nats.Header).Set key value = Finmap.singleton key [value] := by
  apply Finmap.ext_lookup
  intro k
  by_cases hk : k = key
  · subst hk
    simp [nats.Header.Set, Finmap.lookup_insert, Finmap.lookup_singleton_eq]
  · have h1 : k ∉ (Finmap.singleton key [value] : nats.Header) := by
      simp [Finmap.mem_singleton, hk]
    rw [Header.lookup_Set_ne _ _ _ _ hk, Finmap.lookup_empty, Finmap.lookup_eq_none.mpr h1]

theorem newResponder_eq (msg : nats.Msg) :
    newResponder msg =
      { msg := msg,
        resp := { Subject := msg.Reply, Reply := "",
                  Header := Finmap.singleton "Status" ["200"], Data := [] } } := by
  have h200 : strconv.Itoa http.StatusOK = "200" := by decide
  simp [newResponder, nats.NewMsg, h200, Header.Set_empty]

theorem NotFound_fresh {υ : Type} (V : nats.Verdict) (msg : nats.Msg) (w : World υ) :
    (NotFound V (newResponder msg) msg w).2 =
      { sent := w.sent ++ [notFoundReply msg], user := w.user } := by
  have h404 : strconv.Itoa http.StatusNotFound = "404" := by decide
  rw [newResponder_eq]
  simp [NotFound, Error, responder.Respond, responder.SetStatus, responder.SetDescription,
    nats.Msg.RespondMsg, notFoundReply, h404, nats.Header.Set, Finmap.insert_singleton_eq]

/-- C1. In a mux reached from `NewSubjectMux` by successful `HandleFunc` calls,
the callback of `MsgHandler` resolves a message by exact equality of its subject:
if the subject has an entry, the entry holds a non-nil handler and the callback is
one call of that handler on the message and a freshly built responder; if it has
none, the callback is one call of `NotFound`, which sends the 404 reply and leaves
the state of every registered handler untouched. -/
theorem MsgHandler_dispatch {υ : Type} (V : nats.Verdict) (mux : SubjectMux υ)
    (hr : Reachable mux) (msg : nats.Msg) (w : World υ) :
    (∀ e, mux.get msg.Subject = some e →
      ∃ g, e.h = some g ∧ mux.MsgHandler V msg w = some (g (newResponder msg) msg w).2) ∧
    (mux.get msg.Subject = none →
      mux.MsgHandler V msg w = some (NotFound V (newResponder msg) msg w).2 ∧
      mux.MsgHandler V msg w =
        some { sent := w.sent ++ [notFoundReply msg], user := w.user }) := by
  constructor
  · intro e he
    obtain ⟨g, hg⟩ := hr.handler_ne_nil msg.Subject e he
    refine ⟨g, hg, ?_⟩
    simp [SubjectMux.MsgHandler, SubjectMux.handler, he, hg, HandlerFunc.HandleMsg]
  · intro hn
    have h1 : mux.MsgHandler V msg w = some (NotFound V (newResponder msg) msg w).2 := by
      simp [SubjectMux.MsgHandler, SubjectMux.handler, hn, HandlerFunc.HandleMsg]
    exact ⟨h1, by rw [h1, NotFound_fresh]⟩

theorem sampleMux_reachable : Reachable sampleMux :=
  Reachable.register NewSubjectMux "orders.*" (some countCall) Reachable.fresh rfl

theorem sampleMux_get_hit :
    sampleMux.get "orders.*" = some { h := some countCall, subj := "orders.*" } :=
  get_HandleFunc_self NewSubjectMux "orders.*" countCall (by decide)

theorem sampleMux_get_miss (s : String) (hne : s ≠ "orders.*") : sampleMux.get s = none := by
  unfold sampleMux
  rw [get_HandleFunc_ne _ _ _ _ hne]
  rfl

/-- C1 at a concrete mux with the single registration `orders.*`: a message on
`orders.*` runs the registered handler once (the counter goes from 0 to 1, nothing
is sent); a message on `orders.new`, which the pattern would match as a wildcard,
and one on the prefix `orders.` are answered by `NotFound` and leave the counter
at 0. -/
theorem MsgHandler_dispatch_witness :
    Reachable sampleMux ∧
    sampleMux.MsgHandler sampleVerdict (sampleMsg "orders.*") sampleWorld =
      some { sent := [], user := 1 } ∧
    sampleMux.MsgHandler sampleVerdict (sampleMsg "orders.new") sampleWorld =
      some { sent := [notFoundReply (sampleMsg "orders.new")], user := 0 } ∧
    sampleMux.MsgHandler sampleVerdict (sampleMsg "orders.") sampleWorld =
      some { sent := [notFoundReply (sampleMsg "orders.")], user := 0 } := by
  refine ⟨sampleMux_reachable, ?_, ?_, ?_⟩
  · obtain ⟨g, hg, h⟩ :=
      (MsgHandler_dispatch sampleVerdict sampleMux sampleMux_reachable (sampleMsg "orders.*")
        sampleWorld).1 _ sampleMux_get_hit
    cases hg
    exact h
  · exact ((MsgHandler_dispatch sampleVerdict sampleMux sampleMux_reachable
      (sampleMsg "orders.new") sampleWorld).2 (sampleMux_get_miss _ (by decide))).2
  · exact ((MsgHandler_dispatch sampleVerdict sampleMux sampleMux_reachable
      (sampleMsg "orders.") sampleWorld).2 (sampleMux_get_miss _ (by decide))).2

theorem keys_insert_card_of_mem {υ : Type} (m : Finmap (fun _ : String => muxEntry υ))
    (k : String) (e : muxEntry υ) (hk : k ∈ m) : (m.insert k e).keys.card = m.keys.card := by
  have hkeys : (m.insert k e).keys = m.keys := by
    ext a
    simp only [Finmap.mem_keys, Finmap.mem_insert]
    constructor
    · rintro (rfl | h)
      · exact hk
      · exact h
    · exact fun h => Or.inr h
  rw [hkeys]

theorem HandleFunc_ok {υ : Type} (mux : SubjectMux υ) (subj : String) (g : Func υ)
    (hs : subj ≠ "") : (mux.HandleFunc subj (some g)).2 = none := by
  simp [SubjectMux.HandleFunc, hs]

theorem HandleFunc_twice {υ : Type} (mux : SubjectMux υ) (subj : String) (g1 g2 : Func υ)
    (hs : subj ≠ "") :
    ((mux.HandleFunc subj (some g1)).1.HandleFunc subj (some g2)).1 =
      (mux.HandleFunc subj (some g2)).1 := by
  simp [SubjectMux.HandleFunc, hs, Finmap.insert_insert]

theorem HandleFunc_twice_len {υ : Type} (mux : SubjectMux υ) (subj : String) (g1 g2 : Func υ)
    (hs : subj ≠ "") :
    ((mux.HandleFunc subj (some g1)).1.HandleFunc subj (some g2)).1.len =
      (mux.HandleFunc subj (some g1)).1.len := by
  simp only [SubjectMux.HandleFunc, hs, if_false, Option.isNone_some, SubjectMux.len]
  exact keys_insert_card_of_mem _ _ _ (Finmap.mem_insert.mpr (Or.inl rfl))

theorem handler_of_get {υ : Type} (V : nats.Verdict) (mux : SubjectMux υ) (subj : String)
    (e : muxEntry υ) (he : mux.get subj = some e) : mux.handler V subj = e.h := by
  simp [SubjectMux.handler, he]

/-- C2. For every mux, every non-empty subject `S` and all non-nil handlers `H1`,
`H2`: both registrations succeed; after `HandleFunc(S, H1)` and `HandleFunc(S, H2)`
the handler resolved for `S` is `H2` (and so is not `H1` when the two differ), the
entry read for `S` is the one of `H2`, the registry is the one that registering
`H2` alone gives, and it has as many entries as after `HandleFunc(S, H1)` alone. -/
theorem HandleFunc_last_write_wins {υ : Type} (V : nats.Verdict) (mux : SubjectMux υ)
    (S : String) (H1 H2 : Func υ) (hS : S ≠ "") :
    (mux.HandleFunc S (some H1)).2 = none ∧
    ((mux.HandleFunc S (some H1)).1.HandleFunc S (some H2)).2 = none ∧
    ((mux.HandleFunc S (some H1)).1.HandleFunc S (some H2)).1.handler V S = some H2 ∧
    (H1 ≠ H2 →
      ((mux.HandleFunc S (some H1)).1.HandleFunc S (some H2)).1.handler V S ≠ some H1) ∧
    ((mux.HandleFunc S (some H1)).1.HandleFunc S (some H2)).1.get S =
      some { h := some H2, subj := S } ∧
    ((mux.HandleFunc S (some H1)).1.HandleFunc S (some H2)).1 =
      (mux.HandleFunc S (some H2)).1 ∧
    ((mux.HandleFunc S (some H1)).1.HandleFunc S (some H2)).1.len =
      (mux.HandleFunc S (some H1)).1.len := by
  have hget := get_HandleFunc_self (mux.HandleFunc S (some H1)).1 S H2 hS
  have hres := handler_of_get V _ S _ hget
  refine ⟨HandleFunc_ok mux S H1 hS, HandleFunc_ok _ S H2 hS, hres, ?_, hget,
    HandleFunc_twice mux S H1 H2 hS, HandleFunc_twice_len mux S H1 H2 hS⟩
  intro hne
  rw [hres]
  intro h
  exact hne (Option.some.inj h).symm

/-- C2 on the mux that already holds `orders.*`: registering `billing` with the
counting handler and then with the add-ten handler leaves two entries, and a
message on `billing` adds ten. -/
theorem HandleFunc_last_write_wins_witness :
    "billing" ≠ "" ∧
    ((sampleMux.HandleFunc "billing" (some countCall)).1.HandleFunc "billing"
      (some addTen)).1.handler sampleVerdict "billing" = some addTen ∧
    ((sampleMux.HandleFunc "billing" (some countCall)).1.HandleFunc "billing"
      (some addTen)).1.len = (sampleMux.HandleFunc "billing" (some countCall)).1.len ∧
    (sampleMux.HandleFunc "billing" (some countCall)).1.len = 2 := by
  have h := HandleFunc_last_write_wins sampleVerdict sampleMux "billing" countCall addTen
    (by decide)
  refine ⟨by decide, h.2.2.1, h.2.2.2.2.2.2, ?_⟩
  decide

/-- C3. `HandleFunc(subj, handler)` panics exactly when `subj` is empty or
`handler` is nil; when it panics the mux is the one before the call (a nil map
stays nil, no entry is added, removed or replaced), so every subject resolves to
the handler it resolved to before. -/
theorem HandleFunc_panic_iff_and_unchanged {υ : Type} (V : nats.Verdict) (mux : SubjectMux υ)
    (subj : String) (handler : HandlerFunc υ) :
    ((mux.HandleFunc subj handler).2 ≠ none ↔ (subj = "" ∨ handler = none)) ∧
    ((mux.HandleFunc subj handler).2 ≠ none →
      (mux.HandleFunc subj handler).1 = mux ∧
      (mux.HandleFunc subj handler).1.m = mux.m ∧
      (∀ s, (mux.HandleFunc subj handler).1.get s = mux.get s) ∧
      (∀ s, (mux.HandleFunc subj handler).1.handler V s = mux.handler V s)) := by
  refine ⟨HandleFunc_panic_iff mux subj handler, ?_⟩
  intro hp
  have h := HandleFunc_panic_state mux subj handler hp
  refine ⟨h, ?_, ?_, ?_⟩
  · rw [h]
  · intro s; rw [h]
  · intro s; rw [h]

/-- C3 at concrete calls: an empty subject on a populated mux and a nil handler on
a fresh mux both panic and leave the mux as it was; the fresh registry stays nil. -/
theorem HandleFunc_panic_iff_and_unchanged_witness :
    (sampleMux.HandleFunc "" (some addTen)).2 = some "natsrr: invalid pattern" ∧
    (sampleMux.HandleFunc "" (some addTen)).1 = sampleMux ∧
    ((NewSubjectMux : SubjectMux Nat).HandleFunc "orders.*" none).2 = some "natsrr: nil handler" ∧
    ((NewSubjectMux : SubjectMux Nat).HandleFunc "orders.*" none).1.m = none := by
  refine ⟨rfl, ?_, rfl, ?_⟩
  · exact ((HandleFunc_panic_iff_and_unchanged sampleVerdict sampleMux "" (some addTen)).2
      (by decide)).1
  · exact ((HandleFunc_panic_iff_and_unchanged sampleVerdict NewSubjectMux "orders.*" none).2
      (by decide)).2.1

/-- C4. The responder built for a request `msg` keeps `msg`, and its pending reply
is addressed to the reply-target of `msg`, has the single header `Status` with the
single value 200 and an empty payload. Building it sends nothing: a handler
started by `HandleMsg` runs in the world as it was before. `Respond` with empty
data then hands exactly one reply to the transport, with `Status` 200, no
`Description` and an empty payload. -/
theorem newResponder_default {υ : Type} (V : nats.Verdict) (msg : nats.Msg) (w : World υ)
    (g : Func υ) :
    (newResponder msg).msg = msg ∧
    (newResponder msg).resp.Subject = msg.Reply ∧
    (newResponder msg).resp.Header = Finmap.singleton "Status" ["200"] ∧
    (newResponder msg).resp.Header.keys = {"Status"} ∧
    (newResponder msg).resp.Header.lookup "Status" = some ["200"] ∧
    (newResponder msg).resp.Data = [] ∧
    HandlerFunc.HandleMsg (some g) msg w = some (g (newResponder msg) msg w).2 ∧
    ((newResponder msg).Respond V [] w).2.1.sent = w.sent ++ [defaultReply msg] ∧
    ((newResponder msg).Respond V [] w).2.1.user = w.user ∧
    (defaultReply msg).Header.lookup "Status" = some ["200"] ∧
    (defaultReply msg).Header.lookup "Description" = none ∧
    (defaultReply msg).Data = [] := by
  rw [newResponder_eq]
  refine ⟨rfl, rfl, rfl, ?_, ?_, rfl, ?_, ?_, rfl, ?_, ?_, rfl⟩
  · exact Finmap.keys_singleton _ _
  · exact Finmap.lookup_singleton_eq
  · simp [HandlerFunc.HandleMsg, newResponder_eq]
  · simp [responder.Respond, nats.Msg.RespondMsg, defaultReply]
  · exact Finmap.lookup_singleton_eq
  · simp [defaultReply, Finmap.lookup_eq_none, Finmap.mem_singleton]

theorem lastStatus_concat_status (calls : List Setter) (c : Int) :
    lastStatus (calls ++ [Setter.status c]) = some c := by
  simp [lastStatus, List.filterMap_append]

theorem lastStatus_concat_description (calls : List Setter) (d : String) :
    lastStatus (calls ++ [Setter.description d]) = lastStatus calls := by
  simp [lastStatus, List.filterMap_append]

theorem lastDescription_concat_status (calls : List Setter) (c : Int) :
    lastDescription (calls ++ [Setter.status c]) = lastDescription calls := by
  simp [lastDescription, List.filterMap_append]

theorem lastDescription_concat_description (calls : List Setter) (d : String) :
    lastDescription (calls ++ [Setter.description d]) = some d := by
  simp [lastDescription, List.filterMap_append]

theorem applySetters_concat (r : responder) (calls : List Setter) (c : Setter) :
    applySetters r (calls ++ [c]) = Setter.apply (applySetters r calls) c := by
  simp [applySetters, List.foldl_append]

/-- The state of a responder after any run of setter calls. -/
theorem applySetters_spec (r : responder) (calls : List Setter) :
    (applySetters r calls).msg = r.msg ∧
    (applySetters r calls).resp.Subject = r.resp.Subject ∧
    (applySetters r calls).resp.Reply = r.resp.Reply ∧
    (applySetters r calls).resp.Data = r.resp.Data ∧
    (applySetters r calls).resp.Header.lookup "Status" =
      (match lastStatus calls with
        | some c => some [strconv.Itoa c]
        | none => r.resp.Header.lookup "Status") ∧
    (applySetters r calls).resp.Header.lookup "Description" =
      (match lastDescription calls with
        | some d => some [d]
        | none => r.resp.Header.lookup "Description") ∧
    (∀ k, k ≠ "Status" → k ≠ "Description" →
      (applySetters r calls).resp.Header.lookup k = r.resp.Header.lookup k) := by
  induction calls using List.reverseRecOn with
  | nil => simp [applySetters, lastStatus, lastDescription]
  | append_singleton calls c ih =>
    obtain ⟨h1, h2, h3, h4, h5, h6, h7⟩ := ih
    rw [applySetters_concat]
    cases c with
    | status code =>
      rw [lastStatus_concat_status, lastDescription_concat_status]
      refine ⟨h1, h2, h3, h4, ?_, ?_, ?_⟩
      · exact Header.lookup_Set_self _ _ _
      · simp only [Setter.apply, responder.SetStatus]
        rw [Header.lookup_Set_ne _ _ _ _ (by decide)]
        exact h6
      · intro k hk1 hk2
        simp only [Setter.apply, responder.SetStatus]
        rw [Header.lookup_Set_ne _ _ _ _ hk1]
        exact h7 k hk1 hk2
    | description d =>
      rw [lastStatus_concat_description, lastDescription_concat_description]
      refine ⟨h1, h2, h3, h4, ?_, ?_, ?_⟩
      · simp only [Setter.apply, responder.SetDescription]
        rw [Header.lookup_Set_ne _ _ _ _ (by decide)]
        exact h5
      · exact Header.lookup_Set_self _ _ _
      · intro k hk1 hk2
        simp only [Setter.apply, responder.SetDescription]
        rw [Header.lookup_Set_ne _ _ _ _ hk2]
        exact h7 k hk1 hk2

theorem Respond_sent {υ : Type} (V : nats.Verdict) (r : responder) (data : List UInt8)
    (w : World υ) :
    (r.Respond V data w).2.1.sent = w.sent ++ [{ r.resp with Data := data }] := by
  simp [responder.Respond, nats.Msg.RespondMsg]

/-- C5. After any finite sequence of `SetStatus` and `SetDescription` calls on a
freshly built responder, `Respond` hands one reply to the transport whose `Status`
is the decimal string of the argument of the last `SetStatus` call (200 if there
was none) and whose `Description` is the argument of the last `SetDescription`
call (absent if there was none). `SetStatus(404); SetStatus(500)` gives 500,
`SetStatus` and `SetDescription` commute, and each is idempotent. -/
theorem setters_last_write_wins {υ : Type} (V : nats.Verdict) (msg : nats.Msg)
    (calls : List Setter) (data : List UInt8) (w : World υ) (r : responder)
    (code : Int) (text : String) :
    (∃ reply, ((applySetters (newResponder msg) calls).Respond V data w).2.1.sent =
        w.sent ++ [reply] ∧
      reply.Subject = msg.Reply ∧ reply.Data = data ∧
      reply.Header.lookup "Status" = some [strconv.Itoa ((lastStatus calls).getD 200)] ∧
      reply.Header.lookup "Description" = (lastDescription calls).map (fun d => [d])) ∧
    ((r.SetStatus 404).SetStatus 500).resp.Header.lookup "Status" = some ["500"] ∧
    (((r.SetStatus 404).SetDescription text).SetStatus 500).resp.Header.lookup "Status" =
      some ["500"] ∧
    (r.SetStatus code).SetDescription text = (r.SetDescription text).SetStatus code ∧
    (r.SetStatus code).SetStatus code = r.SetStatus code ∧
    (r.SetDescription text).SetDescription text = r.SetDescription text := by
  have h500 : strconv.Itoa 500 = "500" := by decide
  refine ⟨?_, ?_, ?_, ?_, ?_, ?_⟩
  · obtain ⟨_, h2, _, _, h5, h6, _⟩ := applySetters_spec (newResponder msg) calls
    refine ⟨_, Respond_sent V _ data w, ?_, rfl, ?_, ?_⟩
    · simp only [h2]
      rw [newResponder_eq]
    · simp only [h5]
      cases lastStatus calls with
      | none =>
        rw [newResponder_eq]
        simp [Finmap.lookup_singleton_eq]
        decide
      | some c => simp
    · simp only [h6]
      cases lastDescription calls with
      | none =>
        rw [newResponder_eq]
        simp [Finmap.lookup_eq_none, Finmap.mem_singleton]
      | some d => simp
  · rw [← h500]
    exact Header.lookup_Set_self _ _ _
  · rw [← h500]
    exact Header.lookup_Set_self _ _ _
  · simp only [responder.SetStatus, responder.SetDescription]
    rw [Header.Set_comm _ "Status" "Description" _ _ (by decide)]
  · simp only [responder.SetStatus]
    rw [Header.Set_Set]
  · simp only [responder.SetDescription]
    rw [Header.Set_Set]

/-- C6. `NotFound` on the responder freshly built for `msg` hands exactly one reply
to the transport; that reply is addressed to the reply-target of `msg` and has
`Status` 404, `Description` "No messages", no other header and an empty payload. -/
theorem NotFound_reply {υ : Type} (V : nats.Verdict) (msg : nats.Msg) (w : World υ) :
    (NotFound V (newResponder msg) msg w).2.sent = w.sent ++ [notFoundReply msg] ∧
    (NotFound V (newResponder msg) msg w).2.sent.length = w.sent.length + 1 ∧
    (NotFound V (newResponder msg) msg w).2.user = w.user ∧
    (notFoundReply msg).Subject = msg.Reply ∧
    (notFoundReply msg).Header.lookup "Status" = some ["404"] ∧
    (notFoundReply msg).Header.lookup "Description" = some ["No messages"] ∧
    (notFoundReply msg).Header.keys = {"Status", "Description"} ∧
    (notFoundReply msg).Data = [] := by
  rw [NotFound_fresh]
  refine ⟨rfl, by simp, rfl, rfl, ?_, ?_, ?_, rfl⟩
  · simp only [notFoundReply]
    rw [Finmap.lookup_insert_of_ne _ (by decide)]
    exact Finmap.lookup_singleton_eq
  · simp only [notFoundReply]
    exact Finmap.lookup_insert _
  · simp only [notFoundReply]
    decide

/-- The reply that `Error` sends from the responder `r`. -/
theorem Error_eq {υ : Type} (V : nats.Verdict) (r : responder) (err : String) (code : Int)
    (w : World υ) :
    Error V r err code w =
      ((((r.SetStatus code).SetDescription err).Respond V [] w).1,
       (((r.SetStatus code).SetDescription err).Respond V [] w).2.1) := rfl

/-- C7, as stated, fails: on a request without reply-target the transport reports
an error; the caller that performs `SetStatus(400)`, `SetDescription("bad input")`,
`Respond(nil)` itself receives that error, the caller of `Error` receives nothing. -/
theorem Error_outcome_differs :
    (sequenceOutcome sampleVerdict (newResponder oneWayMsg) "bad input" 400 sampleWorld).err =
      some "nats: message does not have a reply" ∧
    (errorOutcome sampleVerdict (newResponder oneWayMsg) "bad input" 400 sampleWorld).err = none ∧
    errorOutcome sampleVerdict (newResponder oneWayMsg) "bad input" 400 sampleWorld ≠
      sequenceOutcome sampleVerdict (newResponder oneWayMsg) "bad input" 400 sampleWorld := by
  refine ⟨by decide, rfl, ?_⟩
  intro h
  have h2 := congrArg Outcome.err h
  revert h2
  decide

/-- C7, amended. `Error(r, err, code)` leaves the same responder and hands the same
single reply to the transport as `SetStatus(code)`, `SetDescription(err)`,
`Respond(nil)` performed on `r`: the pending reply of `r` with `Status` the decimal
string of `code`, `Description` `err` and an empty payload. No error is returned to
the caller of `Error`; the two outcomes are the same whenever the transport accepts
the send. -/
theorem Error_refines_sequence {υ : Type} (V : nats.Verdict) (r : responder) (err : String)
    (code : Int) (w : World υ) :
    (errorOutcome V r err code w).r = (sequenceOutcome V r err code w).r ∧
    (errorOutcome V r err code w).sent = (sequenceOutcome V r err code w).sent ∧
    (∃ reply, (Error V r err code w).2.sent = w.sent ++ [reply] ∧
      (Error V r err code w).1.resp = reply ∧
      reply.Subject = r.resp.Subject ∧
      reply.Header.lookup "Status" = some [strconv.Itoa code] ∧
      reply.Header.lookup "Description" = some [err] ∧
      (∀ k, k ≠ "Status" → k ≠ "Description" →
        reply.Header.lookup k = r.resp.Header.lookup k) ∧
      reply.Data = []) ∧
    (Error V r err code w).2.user = w.user ∧
    (errorOutcome V r err code w).err = none ∧
    ((sequenceOutcome V r err code w).err = none →
      errorOutcome V r err code w = sequenceOutcome V r err code w) := by
  refine ⟨rfl, rfl, ?_, rfl, rfl, ?_⟩
  · refine ⟨_, Respond_sent V _ [] w, rfl, rfl, ?_, ?_, ?_, rfl⟩
    · simp only [responder.SetStatus, responder.SetDescription]
      rw [Header.lookup_Set_ne _ _ _ _ (by decide)]
      exact Header.lookup_Set_self _ _ _
    · exact Header.lookup_Set_self _ _ _
    · intro k hk1 hk2
      simp only [responder.SetStatus, responder.SetDescription]
      rw [Header.lookup_Set_ne _ _ _ _ hk2, Header.lookup_Set_ne _ _ _ _ hk1]
  · intro h
    simp only [errorOutcome, sequenceOutcome, Error_eq] at h ⊢
    rw [h]

/-- C7, amended, on a request with a reply-target: the transport accepts the send
and the outcome of `Error` is the outcome of the three calls. -/
theorem Error_refines_sequence_witness :
    (sequenceOutcome sampleVerdict (newResponder (sampleMsg "orders.new")) "bad input" 400
      sampleWorld).err = none ∧
    errorOutcome sampleVerdict (newResponder (sampleMsg "orders.new")) "bad input" 400
        sampleWorld =
      sequenceOutcome sampleVerdict (newResponder (sampleMsg "orders.new")) "bad input" 400
        sampleWorld :=
  ⟨by decide,
    (Error_refines_sequence sampleVerdict (newResponder (sampleMsg "orders.new")) "bad input" 400
      sampleWorld).2.2.2.2.2 (by decide)⟩

/-- C8. `Respond(data)` changes nothing of the responder but the payload of the
pending reply, which becomes `data`; it hands that reply to the transport exactly
once, and what it returns is what the transport reported for that send: an error
exactly when the transport reported one, and the same one. -/
theorem Respond_once_and_propagates {υ : Type} (V : nats.Verdict) (r : responder)
    (data : List UInt8) (w : World υ) :
    (r.Respond V data w).1 = { r with resp := { r.resp with Data := data } } ∧
    (r.Respond V data w).1.resp.Data = data ∧
    (r.Respond V data w).2.1.sent = w.sent ++ [(r.Respond V data w).1.resp] ∧
    (r.Respond V data w).2.1.sent.length = w.sent.length + 1 ∧
    (r.Respond V data w).2.1.user = w.user ∧
    (r.Respond V data w).2.2 = V w.sent r.msg (r.Respond V data w).1.resp ∧
    (∀ e, (r.Respond V data w).2.2 = some e ↔
      V w.sent r.msg { r.resp with Data := data } = some e) ∧
    ((r.Respond V data w).2.2 = none ↔
      V w.sent r.msg { r.resp with Data := data } = none) := by
  refine ⟨rfl, rfl, rfl, ?_, rfl, rfl, fun e => Iff.rfl, Iff.rfl⟩
  simp [responder.Respond, nats.Msg.RespondMsg]

end natsrr

namespace strconv

theorem digitVal_digitChar : ∀ d, d < 10 → digitVal (digitChar d) = some d := by decide

theorem digitChar_ne_minus : ∀ d, d < 10 → digitChar d ≠ '-' := by decide

theorem digitChar_ne_zero : ∀ d, d < 10 → d ≠ 0 → digitChar d ≠ '0' := by decide

theorem parseDigits_concat (cs : List Char) (c : Char) :
    ∀ acc, parseDigits acc (cs ++ [c]) =
      (parseDigits acc cs).bind (fun a => (digitVal c).map (fun d => a * 10 + d)) := by
  induction cs with
  | nil =>
    intro acc
    cases h : digitVal c <;> simp [parseDigits, h]
  | cons x xs ih =>
    intro acc
    cases h : digitVal x with
    | none => simp [parseDigits, h]
    | some d => simp [parseDigits, h, ih]

theorem parseDigits_formatBits :
    ∀ fuel n, n < 10 ^ fuel → parseDigits 0 (formatBits fuel n) = some n := by
  intro fuel
  induction fuel with
  | zero =>
    intro n hn
    have h0 : n = 0 := by simpa using hn
    simp [formatBits, parseDigits, h0]
  | succ fuel ih =>
    intro n hn
    by_cases h10 : n < 10
    · simp [formatBits, h10, parseDigits, digitVal_digitChar n h10]
    · have hdiv : n / 10 < 10 ^ fuel := by
        rw [Nat.div_lt_iff_lt_mul (by decide)]
        rw [pow_succ] at hn
        exact hn
      have hmod : n % 10 < 10 := Nat.mod_lt _ (by decide)
      simp only [formatBits, h10, if_false]
      rw [parseDigits_concat, ih _ hdiv, digitVal_digitChar _ hmod]
      simp only [Option.some_bind, Option.map_some']
      rw [Nat.div_add_mod' n 10]

theorem formatBits_small (fuel n : Nat) (h : n < 10) :
    formatBits (fuel + 1) n = [digitChar n] := by
  rw [formatBits]
  simp [h]

theorem formatBits_large (fuel n : Nat) (h : ¬ n < 10) :
    formatBits (fuel + 1) n = formatBits fuel (n / 10) ++ [digitChar (n % 10)] := by
  rw [formatBits]
  simp [h]

theorem formatBits_ne_nil (fuel n : Nat) : formatBits (fuel + 1) n ≠ [] := by
  by_cases h10 : n < 10 <;> simp [formatBits, h10]

theorem formatBits_digits :
    ∀ fuel n, ∀ c ∈ formatBits fuel n, (digitVal c).isSome = true := by
  intro fuel
  induction fuel with
  | zero => intro n c hc; simp [formatBits] at hc
  | succ fuel ih =>
    intro n c hc
    by_cases h10 : n < 10
    · simp only [formatBits, h10, if_true, List.mem_singleton] at hc
      rw [hc, digitVal_digitChar n h10]
      rfl
    · simp only [formatBits, h10, if_false, List.mem_append, List.mem_singleton] at hc
      rcases hc with hc | hc
      · exact ih _ c hc
      · rw [hc, digitVal_digitChar _ (Nat.mod_lt _ (by decide))]
        rfl

theorem formatBits_head :
    ∀ fuel n, n < 10 ^ fuel → n ≠ 0 → (formatBits fuel n).head? ≠ some '0' := by
  intro fuel
  induction fuel with
  | zero =>
    intro n hn hne
    simp [formatBits]
  | succ fuel ih =>
    intro n hn hne
    by_cases h10 : n < 10
    · simp only [formatBits, h10, if_true, List.head?_cons]
      intro h
      exact digitChar_ne_zero n h10 hne (Option.some.inj h)
    · have hdiv : n / 10 < 10 ^ fuel := by
        rw [Nat.div_lt_iff_lt_mul (by decide)]
        rw [pow_succ] at hn
        exact hn
      have hpos : n / 10 ≠ 0 := by
        have : 10 ≤ n := Nat.le_of_not_lt h10
        have := Nat.div_pos this (by decide : 0 < 10)
        omega
      have hfuel : fuel ≠ 0 := by
        intro h0
        rw [h0] at hdiv
        simp at hdiv
        exact hpos hdiv
      obtain ⟨k, rfl⟩ := Nat.exists_eq_succ_of_ne_zero hfuel
      rw [formatBits_large _ _ h10, List.head?_append_of_ne_nil _ (formatBits_ne_nil k (n / 10))]
      exact ih _ hdiv hpos

theorem lt_pow_succ_self (n : Nat) : n < 10 ^ (n + 1) :=
  lt_trans (Nat.lt_pow_self (by decide) n) (Nat.pow_lt_pow_right (by decide) (Nat.lt_succ_self n))

theorem formatBits_canonical (n : Nat) : canonicalDigits (formatBits (n + 1) n) := by
  refine ⟨formatBits_ne_nil n n, formatBits_digits _ _, ?_⟩
  by_cases h0 : n = 0
  · left
    subst h0
    decide
  · right
    exact formatBits_head _ _ (lt_pow_succ_self n) h0

theorem parseDecimal_Itoa (i : Int) : parseDecimal (Itoa i) = some i := by
  have hparse := parseDigits_formatBits (i.natAbs + 1) i.natAbs (lt_pow_succ_self _)
  have hne := formatBits_ne_nil i.natAbs i.natAbs
  by_cases hneg : i < 0
  · have habs : - Int.ofNat i.natAbs = i := by
      simp only [Int.ofNat_eq_coe]
      omega
    simp only [parseDecimal, Itoa, itoaChars, hneg, if_true, hne, if_false, hparse,
      Option.map_some', habs]
  · have habs : Int.ofNat i.natAbs = i := by
      simp only [Int.ofNat_eq_coe]
      omega
    obtain ⟨c, cs, hcs⟩ := List.exists_cons_of_ne_nil hne
    have hc : c ≠ '-' := by
      intro hc
      have hd := formatBits_digits (i.natAbs + 1) i.natAbs c (by rw [hcs]; simp)
      rw [hc] at hd
      revert hd
      decide
    simp only [parseDecimal, Itoa, itoaChars, hneg, if_false]
    rw [hcs]
    simp only [hc, if_false]
    rw [← hcs, hparse]
    simp only [Option.map_some', habs]

end strconv

namespace natsrr

/-- C9. For every integer `code` and every responder, after `SetStatus(code)` the
`Status` header holds exactly one value, the base-10 string of `code`, whatever it
held before: a minus sign followed by the digits of the magnitude for a negative
`code`, the digits alone otherwise, without leading zeros; reading that string as
a decimal integer gives `code`. -/
theorem SetStatus_decimal (r : responder) (code : Int) :
    (r.SetStatus code).resp.Header.lookup "Status" = some [strconv.Itoa code] ∧
    strconv.parseDecimal (strconv.Itoa code) = some code ∧
    (code < 0 → ∃ ds, (strconv.Itoa code).data = '-' :: ds ∧ strconv.canonicalDigits ds ∧
      ds.head? ≠ some '0') ∧
    (0 ≤ code → strconv.canonicalDigits (strconv.Itoa code).data) := by
  refine ⟨Header.lookup_Set_self _ _ _, strconv.parseDecimal_Itoa code, ?_, ?_⟩
  · intro hneg
    refine ⟨strconv.formatBits (code.natAbs + 1) code.natAbs, ?_,
      strconv.formatBits_canonical _, ?_⟩
    · simp [strconv.Itoa, strconv.itoaChars, hneg]
    · exact strconv.formatBits_head _ _ (strconv.lt_pow_succ_self _) (by omega)
  · intro hpos
    have hneg : ¬ code < 0 := by omega
    simp only [strconv.Itoa, strconv.itoaChars, hneg, if_false]
    exact strconv.formatBits_canonical _

/-- C9 at the codes -17, 0 and 99999: the strings are `-17`, `0` and `99999`, and
they are read back as the codes. -/
theorem SetStatus_decimal_witness :
    ((newResponder oneWayMsg).SetStatus (-17)).resp.Header.lookup "Status" =
      some [strconv.Itoa (-17)] ∧
    strconv.Itoa (-17) = "-17" ∧ strconv.Itoa 0 = "0" ∧ strconv.Itoa 99999 = "99999" ∧
    strconv.parseDecimal (strconv.Itoa (-17)) = some (-17) ∧
    (∃ ds, (strconv.Itoa (-17)).data = '-' :: ds ∧ strconv.canonicalDigits ds ∧
      ds.head? ≠ some '0') ∧
    strconv.canonicalDigits (strconv.Itoa 0).data ∧
    strconv.canonicalDigits (strconv.Itoa 99999).data :=
  ⟨(SetStatus_decimal (newResponder oneWayMsg) (-17)).1, by decide, by decide, by decide,
   (SetStatus_decimal (newResponder oneWayMsg) (-17)).2.1,
   (SetStatus_decimal (newResponder oneWayMsg) (-17)).2.2.1 (by decide),
   (SetStatus_decimal (newResponder oneWayMsg) 0).2.2.2 (by decide),
   (SetStatus_decimal (newResponder oneWayMsg) 99999).2.2.2 (by decide)⟩

/-- C10. `SetStatus` changes the `Status` header only and `SetDescription` the
`Description` header only: every other header key, the payload and the
reply-target of the pending reply and the request are as before, and the world
(the log of replies handed to the transport included) is untouched. Of the four
operations of a responder, `Respond` is the only one after which the log has
changed. -/
theorem setters_frame {υ : Type} (V : nats.Verdict) (r : responder) (code : Int)
    (text : String) (w : World υ) (c : Call) :
    ((∀ k, k ≠ "Status" →
        (r.SetStatus code).resp.Header.lookup k = r.resp.Header.lookup k) ∧
      (r.SetStatus code).resp.Data = r.resp.Data ∧
      (r.SetStatus code).resp.Subject = r.resp.Subject ∧
      (r.SetStatus code).resp.Reply = r.resp.Reply ∧
      (r.SetStatus code).msg = r.msg ∧
      (Call.SetStatus code).run V r w = (r.SetStatus code, w)) ∧
    ((∀ k, k ≠ "Description" →
        (r.SetDescription text).resp.Header.lookup k = r.resp.Header.lookup k) ∧
      (r.SetDescription text).resp.Header.lookup "Description" = some [text] ∧
      (r.SetDescription text).resp.Data = r.resp.Data ∧
      (r.SetDescription text).resp.Subject = r.resp.Subject ∧
      (r.SetDescription text).resp.Reply = r.resp.Reply ∧
      (r.SetDescription text).msg = r.msg ∧
      (Call.SetDescription text).run V r w = (r.SetDescription text, w)) ∧
    ((c.run V r w).2.sent ≠ w.sent ↔ ∃ data, c = Call.Respond data) ∧
    (c.run V r w).2.user = w.user := by
  refine ⟨⟨?_, rfl, rfl, rfl, rfl, rfl⟩, ⟨?_, ?_, rfl, rfl, rfl, rfl, rfl⟩, ?_, ?_⟩
  · intro k hk
    exact Header.lookup_Set_ne _ _ _ _ hk
  · intro k hk
    exact Header.lookup_Set_ne _ _ _ _ hk
  · exact Header.lookup_Set_self _ _ _
  · cases c with
    | SetStatus statusCode => simp [Call.run]
    | SetDescription description => simp [Call.run]
    | Header => simp [Call.run]
    | Respond data =>
      simp only [Call.run, Respond_sent]
      constructor
      · intro _
        exact ⟨data, rfl⟩
      · intro _ h
        have hlen := congrArg List.length h
        simp at hlen
  · cases c <;> rfl

/-- C10 on a responder that carries the `Description` "busy": `SetStatus(503)`
keeps it, `SetStatus` and `Header` leave the log of a world with nothing sent
empty, and `Respond` changes it. -/
theorem setters_frame_witness :
    (((newResponder (sampleMsg "orders.new")).SetDescription "busy").SetStatus
        503).resp.Header.lookup "Description" = some ["busy"] ∧
    ((Call.SetStatus 503).run sampleVerdict (newResponder (sampleMsg "orders.new"))
      sampleWorld).2.sent = [] ∧
    ((Call.Header).run sampleVerdict (newResponder (sampleMsg "orders.new"))
      sampleWorld).2.sent = [] ∧
    ((Call.Respond [7]).run sampleVerdict (newResponder (sampleMsg "orders.new"))
      sampleWorld).2.sent ≠ sampleWorld.sent := by
  have h := setters_frame sampleVerdict
    ((newResponder (sampleMsg "orders.new")).SetDescription "busy") 503 "busy" sampleWorld
    (Call.Respond [7])
  refine ⟨?_, rfl, rfl, ?_⟩
  · rw [h.1.1 "Description" (by decide)]
    exact Header.lookup_Set_self _ _ _
  · exact (setters_frame sampleVerdict (newResponder (sampleMsg "orders.new")) 503 "busy"
      sampleWorld (Call.Respond [7])).2.2.1.mpr ⟨[7], rfl⟩

theorem runOps_append {υ : Type} (V : nats.Verdict) (ops1 ops2 : List Op) :
    ∀ (r : responder) (w : World υ),
      runOps V (ops1 ++ ops2) r w = runOps V ops2 (runOps V ops1 r w).1 (runOps V ops1 r w).2 := by
  induction ops1 with
  | nil => intro r w; rfl
  | cons op ops ih => intro r w; simp [runOps, ih]

theorem wellFormed_of_status (m : nats.Msg) (c : Int)
    (h : m.Header.lookup "Status" = some [strconv.Itoa c]) : wellFormed m :=
  ⟨strconv.Itoa c, [], h, by rw [strconv.parseDecimal_Itoa]; simp⟩

/-- One operation that leaves the key `Status` of the map alone keeps a decimal
`Status` on the pending reply, and every reply it sends is well-formed. -/
theorem Op.run_wellFormed {υ : Type} (V : nats.Verdict) (op : Op) (r : responder) (w : World υ)
    (hop : op.touchesStatus = false)
    (hr : ∃ c, r.resp.Header.lookup "Status" = some [strconv.Itoa c]) :
    (∃ c, (op.run V r w).1.resp.Header.lookup "Status" = some [strconv.Itoa c]) ∧
    ∃ replies, (op.run V r w).2.sent = w.sent ++ replies ∧ ∀ m ∈ replies, wellFormed m := by
  obtain ⟨c, hc⟩ := hr
  cases op with
  | SetStatus statusCode =>
    exact ⟨⟨statusCode, Header.lookup_Set_self _ _ _⟩, [], by simp [Op.run], by simp⟩
  | SetDescription description =>
    refine ⟨⟨c, ?_⟩, [], by simp [Op.run], by simp⟩
    simp only [Op.run, responder.SetDescription]
    rw [Header.lookup_Set_ne _ _ _ _ (by decide)]
    exact hc
  | HeaderWrite key values =>
    have hk : "Status" ≠ key := by
      intro h
      simp [Op.touchesStatus, ← h] at hop
    refine ⟨⟨c, ?_⟩, [], by simp [Op.run], by simp⟩
    simp only [Op.run, responder.HeaderWrite, responder.Header]
    rw [Finmap.lookup_insert_of_ne _ hk]
    exact hc
  | HeaderDelete key =>
    have hk : "Status" ≠ key := by
      intro h
      simp [Op.touchesStatus, ← h] at hop
    refine ⟨⟨c, ?_⟩, [], by simp [Op.run], by simp⟩
    simp only [Op.run, responder.HeaderDelete, responder.Header]
    rw [Finmap.lookup_erase_ne hk]
    exact hc
  | Respond data =>
    refine ⟨⟨c, hc⟩, [{ r.resp with Data := data }], ?_, ?_⟩
    · simp only [Op.run]
      exact Respond_sent V r data w
    · intro m hm
      rw [List.mem_singleton] at hm
      exact wellFormed_of_status m c (by rw [hm]; exact hc)
  | Error err code =>
    have hst : (((r.SetStatus code).SetDescription err).resp.Header.lookup "Status") =
        some [strconv.Itoa code] := by
      simp only [responder.SetStatus, responder.SetDescription]
      rw [Header.lookup_Set_ne _ _ _ _ (by decide)]
      exact Header.lookup_Set_self _ _ _
    refine ⟨⟨code, hst⟩, [(((r.SetStatus code).SetDescription err).Respond V [] w).1.resp], ?_, ?_⟩
    · simp only [Op.run, Error_eq]
      exact Respond_sent V _ [] w
    · intro m hm
      rw [List.mem_singleton] at hm
      exact wellFormed_of_status m code (by rw [hm]; exact hst)
  | NotFound =>
    have hst : (((r.SetStatus http.StatusNotFound).SetDescription "No messages").resp.Header.lookup
        "Status") = some [strconv.Itoa http.StatusNotFound] := by
      simp only [responder.SetStatus, responder.SetDescription]
      rw [Header.lookup_Set_ne _ _ _ _ (by decide)]
      exact Header.lookup_Set_self _ _ _
    refine ⟨⟨http.StatusNotFound, hst⟩,
      [(((r.SetStatus http.StatusNotFound).SetDescription "No messages").Respond V [] w).1.resp],
      ?_, ?_⟩
    · simp only [Op.run, NotFound, Error_eq]
      exact Respond_sent V _ [] w
    · intro m hm
      rw [List.mem_singleton] at hm
      exact wellFormed_of_status m http.StatusNotFound (by rw [hm]; exact hst)

theorem runOps_wellFormed {υ : Type} (V : nats.Verdict) (ops : List Op) :
    ∀ (r : responder) (w : World υ), (∀ op ∈ ops, op.touchesStatus = false) →
      (∃ c, r.resp.Header.lookup "Status" = some [strconv.Itoa c]) →
      ∃ replies, (runOps V ops r w).2.sent = w.sent ++ replies ∧ ∀ m ∈ replies, wellFormed m := by
  induction ops with
  | nil => intro r w _ _; exact ⟨[], by simp [runOps], by simp⟩
  | cons op ops ih =>
    intro r w hops hr
    obtain ⟨hr1, rs1, hs1, hw1⟩ :=
      Op.run_wellFormed V op r w (hops op (List.mem_cons_self _ _)) hr
    obtain ⟨rs2, hs2, hw2⟩ := ih (op.run V r w).1 (op.run V r w).2
      (fun o ho => hops o (List.mem_cons_of_mem _ ho)) hr1
    refine ⟨rs1 ++ rs2, ?_, ?_⟩
    · simp only [runOps]
      rw [hs2, hs1, List.append_assoc]
    · intro m hm
      rcases List.mem_append.mp hm with h | h
      · exact hw1 m h
      · exact hw2 m h

/-- C11, as stated, fails: a handler that deletes `Status` from the map returned by
`Header()`, or writes a text there that is no number, and then calls `Respond`
hands a reply to the transport that has no decimal `Status`. -/
theorem malformed_reply_reachable :
    (∃ m ∈ (runOps sampleVerdict [Op.HeaderDelete "Status", Op.Respond []]
        (newResponder (sampleMsg "orders.new")) sampleWorld).2.sent, ¬ wellFormed m) ∧
    (∃ m ∈ (runOps sampleVerdict [Op.HeaderWrite "Status" ["busy"], Op.Respond []]
        (newResponder (sampleMsg "orders.new")) sampleWorld).2.sent, ¬ wellFormed m) := by
  constructor
  · refine ⟨nats.Msg.mk "_INBOX.1" "" ∅ [], by decide, ?_⟩
    rintro ⟨v, rest, h, _⟩
    change Finmap.lookup "Status" (∅ : nats.Header) = some (v :: rest) at h
    rw [Finmap.lookup_empty] at h
    cases h
  · refine ⟨nats.Msg.mk "_INBOX.1" "" (Finmap.singleton "Status" ["busy"]) [], by decide, ?_⟩
    rintro ⟨v, rest, h, hp⟩
    have hv : v = "busy" := by
      have h2 : (some ["busy"] : Option (List String)) = some (v :: rest) := by
        rw [← h]
        decide
      simp only [Option.some.injEq, List.cons.injEq] at h2
      exact h2.1.symm
    rw [hv] at hp
    revert hp
    decide

/-- C11, amended. For every finite sequence of `SetStatus`, `SetDescription`,
`Respond`, `Error`, `NotFound` and of writes and deletes on the map returned by
`Header()` that leave the key `Status` alone, performed on a freshly built
responder, each reply handed to the transport carries a `Status` header whose
value is a decimal integer string. -/
theorem replies_wellFormed {υ : Type} (V : nats.Verdict) (msg : nats.Msg) (ops : List Op)
    (w : World υ) (hops : ∀ op ∈ ops, op.touchesStatus = false) :
    ∃ replies, (runOps V ops (newResponder msg) w).2.sent = w.sent ++ replies ∧
      ∀ m ∈ replies, wellFormed m := by
  refine runOps_wellFormed V ops (newResponder msg) w hops ⟨http.StatusOK, ?_⟩
  exact Header.lookup_Set_self _ _ _

/-- C11, amended, on a handler that writes a header of its own, replies with
status 503, deletes `Description` and then calls `NotFound`: both replies are
well-formed. -/
theorem replies_wellFormed_witness :
    (∀ op ∈ [Op.HeaderWrite "X-Trace" ["1"], Op.SetStatus 503, Op.Respond [1],
        Op.HeaderDelete "Description", Op.NotFound], op.touchesStatus = false) ∧
    ∃ replies, (runOps sampleVerdict [Op.HeaderWrite "X-Trace" ["1"], Op.SetStatus 503,
        Op.Respond [1], Op.HeaderDelete "Description", Op.NotFound]
        (newResponder (sampleMsg "orders.new")) sampleWorld).2.sent = sampleWorld.sent ++ replies ∧
      ∀ m ∈ replies, wellFormed m :=
  ⟨by decide, replies_wellFormed sampleVerdict (sampleMsg "orders.new") _ sampleWorld (by decide)⟩

/-- C12, evaluated: on the responder freshly built for a request, `SetStatus(404)`
and `SetDescription("gone")` leave the log of replies handed to the transport
empty; only the headers of the pending reply change. -/
theorem setters_send_nothing :
    ((Call.SetStatus 404).run sampleVerdict (newResponder (sampleMsg "orders.new"))
      sampleWorld).2.sent = [] ∧
    ((Call.SetDescription "gone").run sampleVerdict (newResponder (sampleMsg "orders.new"))
      sampleWorld).2.sent = [] ∧
    ((Call.SetStatus 404).run sampleVerdict (newResponder (sampleMsg "orders.new"))
      sampleWorld).1.resp.Header.lookup "Status" = some ["404"] := by
  refine ⟨rfl, rfl, by decide⟩

theorem respondAll_spec {υ : Type} (V : nats.Verdict) (payloads : List (List UInt8)) :
    ∀ (r : responder) (w : World υ),
      (respondAll V payloads r w).2.sent =
        w.sent ++ payloads.map (fun d => ({ r.resp with Data := d } : nats.Msg)) ∧
      (respondAll V payloads r w).2.user = w.user ∧
      (respondAll V payloads r w).1.resp.Header = r.resp.Header ∧
      (respondAll V payloads r w).1.msg = r.msg := by
  induction payloads with
  | nil => intro r w; simp [respondAll]
  | cons d ds ih =>
    intro r w
    obtain ⟨h1, h2, h3, h4⟩ := ih (r.Respond V d w).1 (r.Respond V d w).2.1
    simp only [respondAll]
    refine ⟨?_, ?_, ?_, ?_⟩
    · rw [h1, Respond_sent]
      simp [responder.Respond]
    · rw [h2]; rfl
    · rw [h3]; rfl
    · rw [h4]; rfl

/-- C15. `Respond` has no already-sent guard: `Respond(d1)`, ..., `Respond(dn)` on
one responder hand n replies to the transport, the i-th being the pending reply
with payload `di`; and when setter calls come between two `Respond` calls, the
second reply carries the headers as those calls left them. -/
theorem Respond_repeats {υ : Type} (V : nats.Verdict) (r : responder)
    (payloads : List (List UInt8)) (w : World υ) (d1 d2 : List UInt8) (calls : List Setter) :
    (respondAll V payloads r w).2.sent =
      w.sent ++ payloads.map (fun d => ({ r.resp with Data := d } : nats.Msg)) ∧
    (respondAll V payloads r w).2.sent.length = w.sent.length + payloads.length ∧
    (∃ reply1 reply2,
      ((applySetters (r.Respond V d1 w).1 calls).Respond V d2 (r.Respond V d1 w).2.1).2.1.sent =
        w.sent ++ [reply1, reply2] ∧
      reply1.Data = d1 ∧ reply1.Header = r.resp.Header ∧
      reply2.Data = d2 ∧ reply2.Header = (applySetters r calls).resp.Header ∧
      reply2.Header.lookup "Status" =
        (match lastStatus calls with
          | some c => some [strconv.Itoa c]
          | none => r.resp.Header.lookup "Status") ∧
      reply2.Header.lookup "Description" =
        (match lastDescription calls with
          | some d => some [d]
          | none => r.resp.Header.lookup "Description")) := by
  have hall := respondAll_spec V payloads r w
  refine ⟨hall.1, by rw [hall.1]; simp, ?_⟩
  have hhdr : ∀ (cs : List Setter) (a b : responder), a.resp.Header = b.resp.Header →
      (applySetters a cs).resp.Header = (applySetters b cs).resp.Header := by
    intro cs
    induction cs with
    | nil => intro a b h; exact h
    | cons c cs ih =>
      intro a b h
      simp only [applySetters, List.foldl_cons] at ih ⊢
      apply ih
      cases c <;> simp [Setter.apply, responder.SetStatus, responder.SetDescription, h]
  have hsame : (applySetters (r.Respond V d1 w).1 calls).resp.Header =
      (applySetters r calls).resp.Header := hhdr calls _ _ rfl
  obtain ⟨_, _, _, _, h5, h6, _⟩ := applySetters_spec r calls
  refine ⟨{ r.resp with Data := d1 },
    { (applySetters (r.Respond V d1 w).1 calls).resp with Data := d2 }, ?_, rfl, rfl, rfl,
    hsame, ?_, ?_⟩
  · rw [Respond_sent, Respond_sent]
    simp [responder.Respond]
  · show (applySetters (r.Respond V d1 w).1 calls).resp.Header.lookup "Status" = _
    rw [hsame]
    exact h5
  · show (applySetters (r.Respond V d1 w).1 calls).resp.Header.lookup "Description" = _
    rw [hsame]
    exact h6

/-- C17. `Error` and `NotFound` drop the result of the send: what they leave
behind (responder and world) does not depend on what the transport answers, so a
failed send cannot be told from an accepted one; they are total and return no
error; `Respond` was run once (the log grew by one reply) and did return the
error the transport reported. -/
theorem Error_NotFound_discard {υ : Type} (V V2 : nats.Verdict) (r : responder) (err : String)
    (code : Int) (msg : nats.Msg) (w : World υ) :
    Error V r err code w = Error V2 r err code w ∧
    NotFound V r msg w = NotFound V2 r msg w ∧
    (Error V r err code w).2.sent.length = w.sent.length + 1 ∧
    (NotFound V r msg w).2.sent.length = w.sent.length + 1 ∧
    (((r.SetStatus code).SetDescription err).Respond V [] w).2.2 =
      V w.sent r.msg (Error V r err code w).1.resp ∧
    (∀ e, V w.sent r.msg (Error V r err code w).1.resp = some e →
      (((r.SetStatus code).SetDescription err).Respond V [] w).2.2 = some e ∧
      Error V r err code w = Error (fun _ _ _ => none) r err code w) := by
  have hE : ∀ (A B : nats.Verdict) (e : String) (c : Int), Error A r e c w = Error B r e c w := by
    intro A B e c
    rfl
  refine ⟨hE V V2 err code, hE V V2 _ _, ?_, ?_, rfl, ?_⟩
  · rw [Error_eq, Respond_sent]
    simp
  · simp only [NotFound]
    rw [Error_eq, Respond_sent]
    simp
  · intro e he
    exact ⟨he, rfl⟩

/-- C17 on a request without reply-target and a transport that refuses it:
`Respond` inside `Error` returned the error, and `Error` left what it leaves when
the transport accepts. -/
theorem Error_NotFound_discard_witness :
    (((newResponder oneWayMsg).SetStatus 500).SetDescription "boom").Respond sampleVerdict []
      sampleWorld |>.2.2 = some "nats: message does not have a reply" ∧
    Error sampleVerdict (newResponder oneWayMsg) "boom" 500 sampleWorld =
      Error (fun _ _ _ => none) (newResponder oneWayMsg) "boom" 500 sampleWorld :=
  (Error_NotFound_discard sampleVerdict brokenVerdict (newResponder oneWayMsg) "boom" 500
    oneWayMsg sampleWorld).2.2.2.2.2 "nats: message does not have a reply" (by decide)

theorem ReachableAny.entries {υ : Type} {mux : SubjectMux υ} (hr : ReachableAny mux) :
    ∀ k e, mux.get k = some e → e.subj = k ∧ k ≠ "" ∧ e.h ≠ none := by
  induction hr with
  | fresh => intro k e h; simp [NewSubjectMux, SubjectMux.get] at h
  | call mux subj handler _ ih =>
    intro k e h
    by_cases hp : (mux.HandleFunc subj handler).2 ≠ none
    · rw [HandleFunc_panic_state mux subj handler hp] at h
      exact ih k e h
    · have hnp : ¬ (subj = "" ∨ handler = none) := by
        rw [← HandleFunc_panic_iff mux subj handler]; exact hp
      push_neg at hnp
      obtain ⟨g, rfl⟩ := Option.ne_none_iff_exists'.mp hnp.2
      by_cases hsame : k = subj
      · subst hsame
        rw [get_HandleFunc_self mux k g hnp.1] at h
        cases h
        exact ⟨rfl, hnp.1, by simp⟩
      · rw [get_HandleFunc_ne mux subj k _ hsame] at h
        exact ih k e h

/-- C18. In every mux reached from `NewSubjectMux` by `HandleFunc` calls, the
panicking ones included, an entry stored under key `k` has `subj` equal to `k`,
`k` is not empty and the handler is not nil. Hence the handler resolved for any
subject is not nil and the callback of `MsgHandler` never calls a nil function,
the empty subject resolves to `NotFound`, and on the never-initialised registry
every subject resolves to `NotFound`. -/
theorem registry_invariant {υ : Type} (V : nats.Verdict) (mux : SubjectMux υ)
    (hr : ReachableAny mux) :
    (∀ k e, mux.get k = some e → e.subj = k ∧ k ≠ "" ∧ e.h ≠ none) ∧
    (∀ s, mux.handler V s ≠ none) ∧
    (∀ msg w, mux.MsgHandler V msg w ≠ none) ∧
    mux.get "" = none ∧
    mux.handler V "" = some (NotFound V) ∧
    (∀ s, (NewSubjectMux : SubjectMux υ).m = none ∧
      (NewSubjectMux : SubjectMux υ).handler V s = some (NotFound V)) := by
  have hent := hr.entries
  have hres : ∀ s, mux.handler V s ≠ none := by
    intro s
    cases hg : mux.get s with
    | none => simp [SubjectMux.handler, hg]
    | some e =>
      rw [handler_of_get V mux s e hg]
      exact (hent s e hg).2.2
  have hempty : mux.get "" = none := by
    cases hg : mux.get "" with
    | none => rfl
    | some e => exact absurd rfl (hent "" e hg).2.1
  refine ⟨hent, hres, ?_, hempty, ?_, ?_⟩
  · intro msg w
    obtain ⟨g, hg⟩ := Option.ne_none_iff_exists'.mp (hres msg.Subject)
    simp [SubjectMux.MsgHandler, hg, HandlerFunc.HandleMsg]
  · simp [SubjectMux.handler, hempty]
  · intro s
    exact ⟨rfl, rfl⟩

/-- C18 on the mux that holds `orders.*` after a panicking call with an empty
subject and one with a nil handler: the entry of `orders.*` is as registered and
the empty subject resolves to `NotFound`. -/
theorem registry_invariant_witness :
    ReachableAny ((sampleMux.HandleFunc "" (some addTen)).1.HandleFunc "billing" none).1 ∧
    ((sampleMux.HandleFunc "" (some addTen)).1.HandleFunc "billing" none).1.handler
      sampleVerdict "" = some (NotFound sampleVerdict) ∧
    ((sampleMux.HandleFunc "" (some addTen)).1.HandleFunc "billing" none).1.get "billing" =
      none := by
  have hr : ReachableAny ((sampleMux.HandleFunc "" (some addTen)).1.HandleFunc "billing" none).1 :=
    ReachableAny.call _ _ _ (ReachableAny.call _ _ _
      (ReachableAny.call _ "orders.*" (some countCall) ReachableAny.fresh))
  refine ⟨hr, (registry_invariant sampleVerdict _ hr).2.2.2.2.1, ?_⟩
  exact sampleMux_get_miss "billing" (by decide)

theorem HandleFunc_comm {υ : Type} (mux : SubjectMux υ) (S T : String) (H G : Func υ)
    (hS : S ≠ "") (hT : T ≠ "") (hne : S ≠ T) :
    ((mux.HandleFunc S (some H)).1.HandleFunc T (some G)).1 =
      ((mux.HandleFunc T (some G)).1.HandleFunc S (some H)).1 := by
  simp only [SubjectMux.HandleFunc, hS, hT, if_false, Option.isNone_some, Bool.false_eq_true]
  congr 2
  exact Finmap.insert_insert_of_ne _ hne

/-- C19. A successful `HandleFunc(S, H)` changes what `S` resolves to and nothing
else: every other subject has the entry and the handler it had, and a subject
that had an entry still has one. Successful registrations of two distinct subjects
commute: either order gives the same registry. -/
theorem HandleFunc_frame {υ : Type} (V : nats.Verdict) (mux : SubjectMux υ) (S : String)
    (H : HandlerFunc υ) (hok : (mux.HandleFunc S H).2 = none) :
    (∀ S2, S2 ≠ S →
      (mux.HandleFunc S H).1.get S2 = mux.get S2 ∧
      (mux.HandleFunc S H).1.handler V S2 = mux.handler V S2) ∧
    (∀ S2, mux.get S2 ≠ none → (mux.HandleFunc S H).1.get S2 ≠ none) ∧
    (mux.HandleFunc S H).1.get S = some { h := H, subj := S } ∧
    (∀ (T : String) (G : HandlerFunc υ), T ≠ S →
      ((mux.HandleFunc S H).1.HandleFunc T G).2 = none →
      ((mux.HandleFunc S H).1.HandleFunc T G).1 = ((mux.HandleFunc T G).1.HandleFunc S H).1 ∧
      (mux.HandleFunc T G).2 = none ∧ ((mux.HandleFunc T G).1.HandleFunc S H).2 = none) := by
  have hnp : ¬ (S = "" ∨ H = none) := by
    rw [← HandleFunc_panic_iff mux S H]; simp [hok]
  push_neg at hnp
  obtain ⟨g, rfl⟩ := Option.ne_none_iff_exists'.mp hnp.2
  have hself := get_HandleFunc_self mux S g hnp.1
  refine ⟨?_, ?_, hself, ?_⟩
  · intro S2 h2
    have hg := get_HandleFunc_ne mux S S2 (some g) h2
    exact ⟨hg, by simp only [SubjectMux.handler, hg]⟩
  · intro S2 h2
    by_cases hs : S2 = S
    · rw [hs, hself]; simp
    · rw [get_HandleFunc_ne mux S S2 (some g) hs]; exact h2
  · intro T G hT hokT
    have hnpT : ¬ (T = "" ∨ G = none) := by
      rw [← HandleFunc_panic_iff (mux.HandleFunc S (some g)).1 T G]; simp [hokT]
    push_neg at hnpT
    obtain ⟨g2, rfl⟩ := Option.ne_none_iff_exists'.mp hnpT.2
    exact ⟨HandleFunc_comm mux S T g g2 hnp.1 hnpT.1 (Ne.symm hT),
      HandleFunc_ok mux T g2 hnpT.1, HandleFunc_ok _ S g hnp.1⟩

/-- C19 on the mux that holds `orders.*`: registering `billing` keeps the entry of
`orders.*`, and registering `billing` and `audit` in either order gives the same
registry. -/
theorem HandleFunc_frame_witness :
    (sampleMux.HandleFunc "billing" (some addTen)).2 = none ∧
    (sampleMux.HandleFunc "billing" (some addTen)).1.get "orders.*" =
      some { h := some countCall, subj := "orders.*" } ∧
    ((sampleMux.HandleFunc "billing" (some addTen)).1.HandleFunc "audit" (some countCall)).1 =
      ((sampleMux.HandleFunc "audit" (some countCall)).1.HandleFunc "billing" (some addTen)).1 := by
  have h := HandleFunc_frame sampleVerdict sampleMux "billing" (some addTen) rfl
  refine ⟨rfl, ?_, ?_⟩
  · rw [(h.1 "orders.*" (by decide)).1]
    exact sampleMux_get_hit
  · exact (h.2.2.2 "audit" (some countCall) (by decide) rfl).1

theorem Locked.RLock_eq {υ : Type} (l : Locked υ) (hw : l.mu.writer = false) :
    l.RLock = some { l with mu := { l.mu with readers := l.mu.readers + 1 },
                            calls := l.calls ++ [LockCall.RLock] } := by
  simp [Locked.RLock, sync.RWMutex.RLock, hw]

theorem handlerLocked_eq {υ ω : Type} (V : nats.Verdict) (mux : SubjectMux ω)
    (subj : String) (l : Locked υ) (hw : l.mu.writer = false) :
    mux.handlerLocked V subj l =
      some (mux.handler V subj,
        { l with calls := l.calls ++ [LockCall.RLock, LockCall.RUnlock] }) := by
  cases l with
  | mk mu calls user =>
    cases mu with
    | mk readers writer =>
      simp only at hw
      subst hw
      simp [SubjectMux.handlerLocked, Locked.RLock, Locked.RUnlock, sync.RWMutex.RLock,
        sync.RWMutex.RUnlock, SubjectMux.handler]

/-- C16. In a dispatch by the callback of `MsgHandler` that does not have to wait
for a writer, the resolved handler is invoked in a world in which `RLock` and
`RUnlock` on the mutex have both returned, in this order and as the last two calls
on it, and in which the mutex is as it was before the dispatch: the dispatch holds
no lock while the handler runs. Inside `handler`, between the two calls, the mutex
has one reader more. So when nothing else holds the mutex, a `HandleFunc` call
that the handler makes on the mux takes the mutex and returns, whereas the same
call made while the read lock of the lookup is held would wait. -/
theorem handler_runs_unlocked {υ : Type} (V : nats.Verdict) (mux : SubjectMux (Locked υ))
    (msg : nats.Msg) (w : World (Locked υ)) (hw : w.user.mu.writer = false) :
    mux.MsgHandlerLocked V msg w =
      (mux.handler V msg.Subject).HandleMsg msg
        { w with user := { w.user with
            calls := w.user.calls ++ [LockCall.RLock, LockCall.RUnlock] } } ∧
    (∃ l1, w.user.RLock = some l1 ∧ l1.mu.readers = w.user.mu.readers + 1 ∧
      l1.calls = w.user.calls ++ [LockCall.RLock] ∧
      mux.handlerLocked V msg.Subject w.user = some (mux.handler V msg.Subject, l1.RUnlock) ∧
      l1.RUnlock.mu = w.user.mu ∧
      ∀ (mux2 : SubjectMux (Locked υ)) subj handler,
        mux2.HandleFuncLocked subj handler l1 = none) ∧
    (w.user.mu.readers = 0 →
      ∀ (mux2 : SubjectMux (Locked υ)) subj handler,
        mux2.HandleFuncLocked subj handler
            { w.user with calls := w.user.calls ++ [LockCall.RLock, LockCall.RUnlock] } =
          some ((mux2.HandleFunc subj handler).1, (mux2.HandleFunc subj handler).2,
            { w.user with calls := w.user.calls ++
                [LockCall.RLock, LockCall.RUnlock, LockCall.Lock, LockCall.Unlock] })) := by
  have hh := handlerLocked_eq V mux msg.Subject w.user hw
  refine ⟨?_, ?_, ?_⟩
  · simp only [SubjectMux.MsgHandlerLocked, hh]
  · refine ⟨_, Locked.RLock_eq w.user hw, rfl, rfl, ?_, ?_, ?_⟩
    · rw [hh]
      simp [Locked.RUnlock, sync.RWMutex.RUnlock]
    · simp [Locked.RUnlock, sync.RWMutex.RUnlock]
    · intro mux2 subj handler
      simp [SubjectMux.HandleFuncLocked, Locked.Lock, sync.RWMutex.Lock]
  · intro hr mux2 subj handler
    cases hl : w.user with
    | mk mu calls user =>
      cases mu with
      | mk readers writer =>
        rw [hl] at hw hr
        simp only at hw hr
        subst hw
        subst hr
        simp [SubjectMux.HandleFuncLocked, Locked.Lock, Locked.Unlock, sync.RWMutex.Lock,
          sync.RWMutex.Unlock]

/-- C16 on the unlocked mutex and a mux whose handler for `orders.*` itself calls
`HandleFunc` on the mux: after the dispatch the calls on the mutex are `RLock`,
`RUnlock`, `Lock`, `Unlock` in this order, the mutex is unlocked again and the
handler did not have to wait. -/
theorem handler_runs_unlocked_witness :
    lockedWorld.user.mu.writer = false ∧
    lockedMux.MsgHandlerLocked sampleVerdict (sampleMsg "orders.*") lockedWorld =
      some { sent := [],
             user := { mu := sync.RWMutex.free,
                       calls := [LockCall.RLock, LockCall.RUnlock, LockCall.Lock,
                         LockCall.Unlock],
                       user := false } } := by
  refine ⟨rfl, ?_⟩
  rw [(handler_runs_unlocked sampleVerdict lockedMux (sampleMsg "orders.*") lockedWorld rfl).1]
  have hg : lockedMux.handler sampleVerdict (sampleMsg "orders.*").Subject =
      some registerAgain :=
    handler_of_get sampleVerdict lockedMux "orders.*" _
      (get_HandleFunc_self NewSubjectMux "orders.*" registerAgain (by decide))
  rw [hg]
  rfl

theorem Heap.get_Set_self (hp : Heap) (h : Nat) (key value : String) :
    (hp.Set h key value).get h key = some [value] := by
  simp [Heap.get, Heap.Set, Header.lookup_Set_self]

theorem Heap.get_Set_ne (hp : Heap) (h : Nat) (key value k : String) (hne : k ≠ key) :
    (hp.Set h key value).get h k = hp.get h k := by
  simp [Heap.get, Heap.Set, Header.lookup_Set_ne _ _ _ _ hne]

/-- The responder on the heap built by `newResponderRef` stands for the responder
that `newResponder` builds. -/
theorem load_newResponderRef (msg : nats.Msg) (hp : Heap) :
    (newResponderRef msg hp).1.load (newResponderRef msg hp).2 = newResponder msg := by
  simp [newResponderRef, NewMsgRef, Heap.make, Heap.Set, responderRef.load, MsgRef.load,
    newResponder, nats.NewMsg]

/-- `SetStatus` on the heap is `SetStatus` on the responder the heap holds. -/
theorem load_SetStatus (r : responderRef) (code : Int) (hp : Heap) :
    r.load (r.SetStatus code hp) = (r.load hp).SetStatus code := by
  simp [responderRef.SetStatus, Heap.Set, responderRef.load, MsgRef.load, responder.SetStatus]

/-- `SetDescription` on the heap is `SetDescription` on the responder the heap
holds. -/
theorem load_SetDescription (r : responderRef) (text : String) (hp : Heap) :
    r.load (r.SetDescription text hp) = (r.load hp).SetDescription text := by
  simp [responderRef.SetDescription, Heap.Set, responderRef.load, MsgRef.load,
    responder.SetDescription]

/-- An assignment through the reference that `Header()` returned is `HeaderWrite`
on the responder the heap holds. -/
theorem load_assign_Header (r : responderRef) (key : String) (values : List String)
    (hp : Heap) :
    r.load (hp.assign r.Header key values) = (r.load hp).HeaderWrite key values := by
  simp [responderRef.Header, Heap.assign, responderRef.load, MsgRef.load,
    responder.HeaderWrite, responder.Header]

/-- A deletion through the reference that `Header()` returned is `HeaderDelete` on
the responder the heap holds. -/
theorem load_delete_Header (r : responderRef) (key : String) (hp : Heap) :
    r.load (hp.delete r.Header key) = (r.load hp).HeaderDelete key := by
  simp [responderRef.Header, Heap.delete, responderRef.load, MsgRef.load,
    responder.HeaderDelete, responder.Header]

/-- `Respond` on the heap is `Respond` on the responder the heap holds. -/
theorem load_Respond {υ : Type} (V : nats.Verdict) (r : responderRef) (data : List UInt8)
    (hp : Heap) (w : World υ) :
    ((r.Respond V data hp w).1.load hp, (r.Respond V data hp w).2) =
      (r.load hp).Respond V data w := by
  simp [responderRef.Respond, responder.Respond, responderRef.load, MsgRef.load,
    nats.Msg.RespondMsg]

theorem RespondRef_sent {υ : Type} (V : nats.Verdict) (r : responderRef) (data : List UInt8)
    (hp : Heap) (w : World υ) :
    (r.Respond V data hp w).2.1.sent =
      w.sent ++ [{ Subject := r.resp.Subject, Reply := r.resp.Reply,
                   Header := hp.maps r.resp.Header, Data := data }] := by
  simp [responderRef.Respond, nats.Msg.RespondMsg, MsgRef.load]

/-- A map behind another reference, such as a copy of the header map, does not
change when the responder sets a header. -/
theorem Heap.get_Set_other (hp : Heap) (h h2 : Nat) (key value k : String) (hne : h2 ≠ h) :
    (hp.Set h key value).get h2 k = hp.get h2 k := by
  simp [Heap.get, Heap.Set, Function.update_noteq hne]

/-- C14. With the header map of the pending reply held by reference, as Go holds
it: `Header()` returns that very reference and makes no map. Let `h` be what
`Header()` returned. A value set under a key through `h` is carried by the reply
that `Respond` then sends. A `Status` written through `h` is overwritten by a
later `SetStatus`, and one written after `SetStatus` overrides it. And when `h`
was obtained before a `SetStatus` or `SetDescription` call, reading through `h`
after the call shows what the call set. -/
theorem Header_aliases_reply {υ : Type} (V : nats.Verdict) (r : responderRef) (hp : Heap)
    (K v : String) (data : List UInt8) (w : World υ) (code : Int) (text : String) :
    r.Header = r.resp.Header ∧
    (∃ reply, (r.Respond V data (hp.Set r.Header K v) w).2.1.sent = w.sent ++ [reply] ∧
      reply.Header.lookup K = some [v] ∧ reply.Data = data ∧
      ∀ k, k ≠ K → reply.Header.lookup k = hp.get r.resp.Header k) ∧
    (∃ reply, (r.Respond V data (r.SetStatus code (hp.Set r.Header "Status" v)) w).2.1.sent =
        w.sent ++ [reply] ∧
      reply.Header.lookup "Status" = some [strconv.Itoa code]) ∧
    (∃ reply, (r.Respond V data ((r.SetStatus code hp).Set r.Header "Status" v) w).2.1.sent =
        w.sent ++ [reply] ∧
      reply.Header.lookup "Status" = some [v]) ∧
    (r.SetStatus code hp).get r.Header "Status" = some [strconv.Itoa code] ∧
    (r.SetDescription text hp).get r.Header "Description" = some [text] ∧
    (r.SetDescription text (r.SetStatus code hp)).get r.Header "Status" =
      some [strconv.Itoa code] := by
  refine ⟨rfl, ?_, ?_, ?_, ?_, ?_, ?_⟩
  · refine ⟨_, RespondRef_sent V r data _ w, ?_, rfl, ?_⟩
    · exact Heap.get_Set_self hp r.resp.Header K v
    · intro k hk
      exact Heap.get_Set_ne hp r.resp.Header K v k hk
  · exact ⟨_, RespondRef_sent V r data _ w, Heap.get_Set_self _ r.resp.Header _ _⟩
  · exact ⟨_, RespondRef_sent V r data _ w, Heap.get_Set_self _ r.resp.Header _ _⟩
  · exact Heap.get_Set_self hp r.resp.Header _ _
  · exact Heap.get_Set_self hp r.resp.Header _ _
  · simp only [responderRef.SetDescription, responderRef.Header]
    rw [Heap.get_Set_ne _ _ _ _ _ (by decide)]
    exact Heap.get_Set_self hp r.resp.Header _ _

theorem LockInv.initially : LockInv sync.RWMutex.free (fun _ => Pc.lock) :=
  { readers := rfl
    free := fun _ _ => rfl
    excl := fun i j hi _ => by simp [Pc.idle] at hi
    held := fun i hi => by simp [Pc.idle] at hi
    owner := fun h => by simp [sync.RWMutex.free] at h }

/-- A goroutine takes the unlocked mutex and enters the locked part. -/
theorem LockInv.enter {mu : sync.RWMutex} {pc : Nat → Pc} (h : LockInv mu pc)
    (hw : mu.writer = false) (i : Nat) (p : Pc) (hp : p.idle = false) :
    LockInv { mu with writer := true } (Function.update pc i p) :=
  { readers := h.readers
    free := fun hf => by simp at hf
    excl := fun a b ha hb => by
      have ha2 : a = i := by
        by_contra hne
        rw [Function.update_noteq hne] at ha
        rw [h.free hw a] at ha
        exact Bool.noConfusion ha
      have hb2 : b = i := by
        by_contra hne
        rw [Function.update_noteq hne] at hb
        rw [h.free hw b] at hb
        exact Bool.noConfusion hb
      rw [ha2, hb2]
    held := fun _ _ => rfl
    owner := fun _ => ⟨i, by rw [Function.update_same]; exact hp⟩ }

/-- The goroutine inside the locked part moves to its next statement there. -/
theorem LockInv.move {mu : sync.RWMutex} {pc : Nat → Pc} (h : LockInv mu pc)
    (i : Nat) (hi : (pc i).idle = false) (p : Pc) (hp : p.idle = false) :
    LockInv mu (Function.update pc i p) :=
  { readers := h.readers
    free := fun hf => by
      have := h.held i hi
      rw [hf] at this
      exact Bool.noConfusion this
    excl := fun a b ha hb => by
      have ha2 : a = i := by
        by_contra hne
        rw [Function.update_noteq hne] at ha
        exact hne (h.excl a i ha hi)
      have hb2 : b = i := by
        by_contra hne
        rw [Function.update_noteq hne] at hb
        exact hne (h.excl b i hb hi)
      rw [ha2, hb2]
    held := fun _ _ => h.held i hi
    owner := fun _ => ⟨i, by rw [Function.update_same]; exact hp⟩ }

/-- The goroutine inside the locked part gives the mutex back. -/
theorem LockInv.leave {mu : sync.RWMutex} {pc : Nat → Pc} (h : LockInv mu pc)
    (i : Nat) (hi : (pc i).idle = false) :
    LockInv mu.Unlock (Function.update pc i Pc.done) := by
  have hall : ∀ a, (Function.update pc i Pc.done a).idle = true := by
    intro a
    by_cases hai : a = i
    · rw [hai, Function.update_same]; rfl
    · rw [Function.update_noteq hai]
      by_contra hn
      exact hai (h.excl a i (by simpa using hn) hi)
  exact
    { readers := h.readers
      free := fun _ => hall
      excl := fun a b ha _ => by
        rw [hall a] at ha
        exact Bool.noConfusion ha
      held := fun a ha => by
        rw [hall a] at ha
        exact Bool.noConfusion ha
      owner := fun hw => by simp [sync.RWMutex.Unlock] at hw }

/-- While one goroutine is inside the locked part, no other one is at the
statement `p` inside it. -/
theorem LockInv.alone {mu : sync.RWMutex} {pc : Nat → Pc} (h : LockInv mu pc)
    (i j : Nat) (hi : (pc i).idle = false) (hne : j ≠ i) (p : Pc) (hp : p.idle = false) :
    pc j ≠ p := by
  intro hj
  exact hne (h.excl j i (by rw [hj]; exact hp) hi)

theorem keys_distinct {υ : Type} (calls : List (String × HandlerFunc υ))
    (hnd : (calls.map Prod.fst).Nodup) (i j : Nat) (c d : String × HandlerFunc υ)
    (hc : calls[i]? = some c) (hd : calls[j]? = some d) (hne : i ≠ j) : c.1 ≠ d.1 := by
  intro heq
  have hi : (calls.map Prod.fst)[i]? = some c.1 := by simp [hc]
  have hj : (calls.map Prod.fst)[j]? = some d.1 := by simp [hd]
  have hil : i < (calls.map Prod.fst).length := (List.getElem?_eq_some.mp hi).1
  have hjl : j < (calls.map Prod.fst).length := (List.getElem?_eq_some.mp hj).1
  rcases Nat.lt_or_gt_of_ne hne with hlt | hgt
  · exact List.nodup_iff_getElem?_ne_getElem?.mp hnd i j hlt hjl (by rw [hi, hj, heq])
  · exact List.nodup_iff_getElem?_ne_getElem?.mp hnd j i hgt hil (by rw [hi, hj, heq])

theorem Inv.start {υ : Type} (calls : List (String × HandlerFunc υ)) (mux0 : SubjectMux υ) :
    Inv calls mux0 (Shared.start mux0) :=
  { lk := LockInv.initially
    outside := fun _ _ => rfl
    calm := fun _ => rfl
    seen := fun i hi => by simp [Shared.start] at hi
    made := fun i hi => by simp [Shared.start] at hi
    kept := fun i c _ hi => by simp [Shared.start] at hi
    frame := fun _ _ => rfl }

theorem Lock_eq_some {mu mu1 : sync.RWMutex} (h : mu.Lock = some mu1) :
    mu.writer = false ∧ mu1 = { mu with writer := true } := by
  unfold sync.RWMutex.Lock at h
  split at h
  · cases h
  · rename_i hc
    refine ⟨?_, (Option.some.inj h).symm⟩
    cases hw : mu.writer
    · rfl
    · simp [hw] at hc

/-- One statement of a valid registration keeps the invariant. -/
theorem Inv.step {υ : Type} {calls : List (String × HandlerFunc υ)} {mux0 : SubjectMux υ}
    {s : Shared υ} (hinv : Inv calls mux0 s)
    (hvalid : ∀ c ∈ calls, c.1 ≠ "" ∧ c.2.isSome = true)
    (hnd : (calls.map Prod.fst).Nodup) (i : Nat) (c : String × HandlerFunc υ)
    (hc : calls[i]? = some c) : Inv calls mux0 (HandleFuncStep c.1 c.2 i s) := by
  obtain ⟨hsub, hh⟩ := hvalid c (List.getElem?_mem hc)
  have hnone : c.2.isNone = false := by
    cases h : c.2 with
    | none => simp [h] at hh
    | some g => rfl
  have hio : ∀ j, calls[j]? = none → j ≠ i := by
    intro j hj hji
    rw [hji, hc] at hj
    cases hj
  have hout : ∀ (p : Pc) j, calls[j]? = none → Function.update s.pc i p j = Pc.lock := by
    intro p j hj
    rw [Function.update_noteq (hio j hj)]
    exact hinv.outside j hj
  cases hpc : s.pc i with
  | lock =>
    cases hl : s.mu.Lock with
    | none =>
      simp only [HandleFuncStep, hpc, hl]
      exact hinv
    | some mu1 =>
      obtain ⟨hw, hmu1⟩ := Lock_eq_some hl
      subst hmu1
      simp only [HandleFuncStep, hpc, hl]
      exact
        { lk := hinv.lk.enter hw i Pc.check rfl
          outside := hout Pc.check
          calm := hinv.calm
          seen := fun j hj => by
            by_cases hji : j = i
            · rw [hji] at hj; simp at hj
            · simp only [Function.update_noteq hji] at hj
              exact hinv.seen j hj
          made := fun j hj => by
            by_cases hji : j = i
            · rw [hji] at hj; simp at hj
            · simp only [Function.update_noteq hji] at hj
              exact hinv.made j hj
          kept := fun j d hd hj => by
            by_cases hji : j = i
            · rw [hji] at hj; simp at hj
            · simp only [Function.update_noteq hji] at hj
              exact hinv.kept j d hd hj
          frame := hinv.frame }
  | check =>
    have hi : (s.pc i).idle = false := by rw [hpc]; rfl
    simp only [HandleFuncStep, hpc, hsub, hnone, if_false, Bool.false_eq_true]
    exact
      { lk := hinv.lk.move i hi Pc.test rfl
        outside := hout Pc.test
        calm := hinv.calm
        seen := fun j hj => by
          by_cases hji : j = i
          · rw [hji] at hj; simp at hj
          · simp only [Function.update_noteq hji] at hj
            exact hinv.seen j hj
        made := fun j hj => by
          by_cases hji : j = i
          · rw [hji] at hj; simp at hj
          · simp only [Function.update_noteq hji] at hj
            exact hinv.made j hj
        kept := fun j d hd hj => by
          by_cases hji : j = i
          · rw [hji] at hj; simp at hj
          · simp only [Function.update_noteq hji] at hj
            exact hinv.kept j d hd hj
        frame := hinv.frame }
  | test =>
    have hi : (s.pc i).idle = false := by rw [hpc]; rfl
    simp only [HandleFuncStep, hpc]
    exact
      { lk := hinv.lk.move i hi Pc.make rfl
        outside := hout Pc.make
        calm := hinv.calm
        seen := fun j hj => by
          by_cases hji : j = i
          · rw [hji]
            simp only [Function.update_same]
            exact Option.isNone_iff_eq_none
          · simp only [Function.update_noteq hji] at hj ⊢
            exact hinv.seen j hj
        made := fun j hj => by
          by_cases hji : j = i
          · rw [hji] at hj; simp at hj
          · simp only [Function.update_noteq hji] at hj
            exact hinv.made j hj
        kept := fun j d hd hj => by
          by_cases hji : j = i
          · rw [hji] at hj; simp at hj
          · simp only [Function.update_noteq hji] at hj
            exact hinv.kept j d hd hj
        frame := hinv.frame }
  | make =>
    have hi : (s.pc i).idle = false := by rw [hpc]; rfl
    cases hsaw : s.sawNil i with
    | true =>
      have hm : s.mux.m = none := (hinv.seen i hpc).mp hsaw
      have hget : ∀ k, s.mux.get k = none := fun k => by simp [SubjectMux.get, hm]
      simp only [HandleFuncStep, hpc, hsaw, if_true]
      exact
        { lk := hinv.lk.move i hi Pc.store rfl
          outside := hout Pc.store
          calm := hinv.calm
          seen := fun j hj => by
            by_cases hji : j = i
            · rw [hji] at hj; simp at hj
            · simp only [Function.update_noteq hji] at hj
              exact absurd hj (hinv.lk.alone i j hi hji Pc.make rfl)
          made := fun j _ => by simp
          kept := fun j d hd hj => by
            by_cases hji : j = i
            · rw [hji] at hj; simp at hj
            · simp only [Function.update_noteq hji] at hj
              have := hinv.kept j d hd hj
              rw [hget] at this
              cases this
          frame := fun k hk => by
            rw [← hinv.frame k hk, hget]
            simp [SubjectMux.get, Finmap.lookup_empty] }
    | false =>
      have hm : s.mux.m ≠ none := by
        intro h
        have := (hinv.seen i hpc).mpr h
        rw [hsaw] at this
        cases this
      simp only [HandleFuncStep, hpc, hsaw, if_false, Bool.false_eq_true]
      exact
        { lk := hinv.lk.move i hi Pc.store rfl
          outside := hout Pc.store
          calm := hinv.calm
          seen := fun j hj => by
            by_cases hji : j = i
            · rw [hji] at hj; simp at hj
            · simp only [Function.update_noteq hji] at hj
              exact hinv.seen j hj
          made := fun j _ => hm
          kept := fun j d hd hj => by
            by_cases hji : j = i
            · rw [hji] at hj; simp at hj
            · simp only [Function.update_noteq hji] at hj
              exact hinv.kept j d hd hj
          frame := hinv.frame }
  | store =>
    have hi : (s.pc i).idle = false := by rw [hpc]; rfl
    cases hm : s.mux.m with
    | none => exact absurd hm (hinv.made i hpc)
    | some m =>
      have hget : ∀ k, s.mux.get k = m.lookup k := fun k => by simp [SubjectMux.get, hm]
      simp only [HandleFuncStep, hpc, hm]
      exact
        { lk := hinv.lk.move i hi Pc.unlock rfl
          outside := hout Pc.unlock
          calm := hinv.calm
          seen := fun j hj => by
            by_cases hji : j = i
            · rw [hji] at hj; simp at hj
            · simp only [Function.update_noteq hji] at hj
              exact absurd hj (hinv.lk.alone i j hi hji Pc.make rfl)
          made := fun j _ => by simp
          kept := fun j d hd hj => by
            by_cases hji : j = i
            · rw [hji] at hd
              have hdc : d = c := Option.some.inj (hd.symm.trans hc)
              rw [hdc]
              simp [SubjectMux.get, Finmap.lookup_insert]
            · simp only [Function.update_noteq hji] at hj
              have hne : d.1 ≠ c.1 := keys_distinct calls hnd j i d c hd hc hji
              have hold := hinv.kept j d hd hj
              rw [hget] at hold
              simp only [SubjectMux.get]
              rw [Finmap.lookup_insert_of_ne _ hne]
              exact hold
          frame := fun k hk => by
            have hne : k ≠ c.1 := by
              intro h
              apply hk
              rw [h]
              exact List.mem_map_of_mem Prod.fst (List.getElem?_mem hc)
            have hold := hinv.frame k hk
            rw [hget] at hold
            simp only [SubjectMux.get]
            rw [Finmap.lookup_insert_of_ne _ hne]
            exact hold }
  | unlock =>
    have hi : (s.pc i).idle = false := by rw [hpc]; rfl
    simp only [HandleFuncStep, hpc]
    exact
      { lk := hinv.lk.leave i hi
        outside := hout Pc.done
        calm := hinv.calm
        seen := fun j hj => by
          by_cases hji : j = i
          · rw [hji] at hj; simp at hj
          · simp only [Function.update_noteq hji] at hj
            exact hinv.seen j hj
        made := fun j hj => by
          by_cases hji : j = i
          · rw [hji] at hj; simp at hj
          · simp only [Function.update_noteq hji] at hj
            exact hinv.made j hj
        kept := fun j d hd hj => by
          by_cases hji : j = i
          · rw [hji] at hd
            have hdc : d = c := Option.some.inj (hd.symm.trans hc)
            rw [hdc]
            exact hinv.kept i c hc (Or.inl hpc)
          · simp only [Function.update_noteq hji] at hj
            exact hinv.kept j d hd hj
        frame := hinv.frame }
  | done =>
    simp only [HandleFuncStep, hpc]
    exact hinv

/-- Every schedule of valid registrations keeps the invariant. -/
theorem Inv.run {υ : Type} {calls : List (String × HandlerFunc υ)} {mux0 : SubjectMux υ}
    (hvalid : ∀ c ∈ calls, c.1 ≠ "" ∧ c.2.isSome = true)
    (hnd : (calls.map Prod.fst).Nodup) (sched : List Nat) :
    ∀ s, Inv calls mux0 s → Inv calls mux0 (runSchedule calls sched s) := by
  induction sched with
  | nil => intro s h; exact h
  | cons i rest ih =>
    intro s h
    cases hc : calls[i]? with
    | none =>
      simp only [runSchedule, hc]
      exact ih s h
    | some c =>
      simp only [runSchedule, hc]
      exact ih _ (h.step hvalid hnd i c hc)

theorem runSchedule_append {υ : Type} (calls : List (String × HandlerFunc υ))
    (a b : List Nat) :
    ∀ s, runSchedule calls (a ++ b) s = runSchedule calls b (runSchedule calls a s) := by
  induction a with
  | nil => intro s; rfl
  | cons i rest ih =>
    intro s
    cases hc : calls[i]? with
    | none => simp only [List.cons_append, runSchedule, hc]; exact ih s
    | some c => simp only [List.cons_append, runSchedule, hc]; exact ih _

/-- A goroutine that is inside the locked part, or that finds the mutex unlocked,
executes its next statement: it has one statement less to go, it stays able to
move, and no other goroutine moves. -/
theorem step_progress {υ : Type} {calls : List (String × HandlerFunc υ)} {mux0 : SubjectMux υ}
    {s : Shared υ} (hinv : Inv calls mux0 s)
    (hvalid : ∀ c ∈ calls, c.1 ≠ "" ∧ c.2.isSome = true) (i : Nat)
    (c : String × HandlerFunc υ) (hc : calls[i]? = some c)
    (hen : (s.pc i).idle = false ∨ s.mu.writer = false) (hnd : s.pc i ≠ Pc.done) :
    ((HandleFuncStep c.1 c.2 i s).pc i).rank + 1 = (s.pc i).rank ∧
    (((HandleFuncStep c.1 c.2 i s).pc i).idle = false ∨
      (HandleFuncStep c.1 c.2 i s).mu.writer = false) ∧
    ∀ j, j ≠ i → (HandleFuncStep c.1 c.2 i s).pc j = s.pc j := by
  obtain ⟨hsub, hh⟩ := hvalid c (List.getElem?_mem hc)
  have hnone : c.2.isNone = false := by
    cases h : c.2 with
    | none => simp [h] at hh
    | some g => rfl
  cases hpc : s.pc i with
  | lock =>
    have hw : s.mu.writer = false := by
      rcases hen with h | h
      · rw [hpc] at h; cases h
      · exact h
    have hl : s.mu.Lock = some { s.mu with writer := true } := by
      simp [sync.RWMutex.Lock, hw, hinv.lk.readers]
    simp only [HandleFuncStep, hpc, hl]
    refine ⟨by simp [Pc.rank], Or.inl (by simp [Pc.idle]), ?_⟩
    intro j hj
    exact Function.update_noteq hj _ _
  | check =>
    simp only [HandleFuncStep, hpc, hsub, hnone, if_false, Bool.false_eq_true]
    refine ⟨by simp [Pc.rank], Or.inl (by simp [Pc.idle]), ?_⟩
    intro j hj
    exact Function.update_noteq hj _ _
  | test =>
    simp only [HandleFuncStep, hpc]
    refine ⟨by simp [Pc.rank], Or.inl (by simp [Pc.idle]), ?_⟩
    intro j hj
    exact Function.update_noteq hj _ _
  | make =>
    cases hsaw : s.sawNil i with
    | true =>
      simp only [HandleFuncStep, hpc, hsaw, if_true]
      refine ⟨by simp [Pc.rank], Or.inl (by simp [Pc.idle]), ?_⟩
      intro j hj
      exact Function.update_noteq hj _ _
    | false =>
      simp only [HandleFuncStep, hpc, hsaw, if_false, Bool.false_eq_true]
      refine ⟨by simp [Pc.rank], Or.inl (by simp [Pc.idle]), ?_⟩
      intro j hj
      exact Function.update_noteq hj _ _
  | store =>
    cases hm : s.mux.m with
    | none => exact absurd hm (hinv.made i hpc)
    | some m =>
      simp only [HandleFuncStep, hpc, hm]
      refine ⟨by simp [Pc.rank], Or.inl (by simp [Pc.idle]), ?_⟩
      intro j hj
      exact Function.update_noteq hj _ _
  | unlock =>
    simp only [HandleFuncStep, hpc]
    refine ⟨by simp [Pc.rank], Or.inr (by simp [sync.RWMutex.Unlock]), ?_⟩
    intro j hj
    exact Function.update_noteq hj _ _
  | done => exact absurd hpc hnd

/-- A goroutine that is inside the locked part, or that finds the mutex unlocked,
returns when it is given enough steps; the mutex is then unlocked and no other
goroutine has moved. -/
theorem finish {υ : Type} {calls : List (String × HandlerFunc υ)} {mux0 : SubjectMux υ}
    (hvalid : ∀ c ∈ calls, c.1 ≠ "" ∧ c.2.isSome = true)
    (hnd : (calls.map Prod.fst).Nodup) (i : Nat) (c : String × HandlerFunc υ)
    (hc : calls[i]? = some c) :
    ∀ n (s : Shared υ), Inv calls mux0 s → (s.pc i).rank ≤ n →
      ((s.pc i).idle = false ∨ s.mu.writer = false) →
      (runSchedule calls (List.replicate n i) s).pc i = Pc.done ∧
      (runSchedule calls (List.replicate n i) s).mu.writer = false ∧
      ∀ j, j ≠ i → (runSchedule calls (List.replicate n i) s).pc j = s.pc j := by
  intro n
  induction n with
  | zero =>
    intro s _ hr hen
    have hdone : s.pc i = Pc.done := by
      cases hpc : s.pc i <;> rw [hpc] at hr <;> simp [Pc.rank] at hr
    refine ⟨hdone, ?_, fun _ _ => rfl⟩
    rcases hen with h | h
    · rw [hdone] at h; cases h
    · exact h
  | succ n ih =>
    intro s hinv hr hen
    simp only [List.replicate_succ, runSchedule, hc]
    by_cases hdone : s.pc i = Pc.done
    · have hsame : HandleFuncStep c.1 c.2 i s = s := by
        simp only [HandleFuncStep, hdone]
      rw [hsame]
      exact ih s hinv (by rw [hdone]; simp [Pc.rank]) hen
    · obtain ⟨h1, h2, h3⟩ := step_progress hinv hvalid i c hc hen hdone
      obtain ⟨g1, g2, g3⟩ := ih _ (hinv.step hvalid hnd i c hc) (by omega) h2
      refine ⟨g1, g2, ?_⟩
      intro j hj
      rw [g3 j hj, h3 j hj]

theorem Pc.rank_le (p : Pc) : p.rank ≤ 6 := by
  cases p <;> simp [Pc.rank]

/-- From a state with the mutex unlocked, the goroutines of a list can all be run
to their return, one after the other; goroutines that had returned stay so. -/
theorem finish_all {υ : Type} {calls : List (String × HandlerFunc υ)} {mux0 : SubjectMux υ}
    (hvalid : ∀ c ∈ calls, c.1 ≠ "" ∧ c.2.isSome = true)
    (hnd : (calls.map Prod.fst).Nodup) :
    ∀ (L : List Nat), (∀ i ∈ L, i < calls.length) →
      ∀ (s : Shared υ), Inv calls mux0 s → s.mu.writer = false →
      ∃ more, (∀ i ∈ L, (runSchedule calls more s).pc i = Pc.done) ∧
        (∀ j, s.pc j = Pc.done → (runSchedule calls more s).pc j = Pc.done) := by
  intro L
  induction L with
  | nil => intro _ s _ _; exact ⟨[], by simp, fun _ h => h⟩
  | cons i L ih =>
    intro hL s hinv hw
    have hi : i < calls.length := hL i (List.mem_cons_self _ _)
    have hc : calls[i]? = some calls[i] := List.getElem?_eq_getElem hi
    obtain ⟨f1, f2, f3⟩ :=
      finish hvalid hnd i calls[i] hc 6 s hinv (Pc.rank_le _) (Or.inr hw)
    obtain ⟨more, m1, m2⟩ := ih (fun j hj => hL j (List.mem_cons_of_mem _ hj))
      (runSchedule calls (List.replicate 6 i) s) (Inv.run hvalid hnd _ s hinv) f2
    refine ⟨List.replicate 6 i ++ more, ?_, ?_⟩
    · intro j hj
      rw [runSchedule_append]
      rcases List.mem_cons.mp hj with h | h
      · rw [h]; exact m2 i f1
      · exact m1 j h
    · intro j hj
      rw [runSchedule_append]
      apply m2
      by_cases hji : j = i
      · rw [hji]; exact f1
      · rw [f3 j hji]; exact hj

/-- No deadlock: from every state that concurrent valid registrations reach, some
continuation of the schedule lets every goroutine return. -/
theorem progress {υ : Type} {calls : List (String × HandlerFunc υ)} {mux0 : SubjectMux υ}
    (hvalid : ∀ c ∈ calls, c.1 ≠ "" ∧ c.2.isSome = true)
    (hnd : (calls.map Prod.fst).Nodup) (s : Shared υ) (hinv : Inv calls mux0 s) :
    ∃ more, ∀ i, i < calls.length → (runSchedule calls more s).pc i = Pc.done := by
  have hrange : ∀ i ∈ List.range calls.length, i < calls.length :=
    fun i hi => List.mem_range.mp hi
  cases hw : s.mu.writer with
  | false =>
    obtain ⟨more, m1, _⟩ := finish_all hvalid hnd _ hrange s hinv hw
    exact ⟨more, fun i hi => m1 i (List.mem_range.mpr hi)⟩
  | true =>
    obtain ⟨h, hh⟩ := hinv.lk.owner hw
    have hsome : ∃ c, calls[h]? = some c := by
      cases hc : calls[h]? with
      | none =>
        have := hinv.outside h hc
        rw [this] at hh
        cases hh
      | some c => exact ⟨c, rfl⟩
    obtain ⟨c, hc⟩ := hsome
    obtain ⟨_, f2, _⟩ := finish hvalid hnd h c hc 6 s hinv (Pc.rank_le _) (Or.inl hh)
    obtain ⟨more, m1, _⟩ := finish_all hvalid hnd _ hrange
      (runSchedule calls (List.replicate 6 h) s) (Inv.run hvalid hnd _ s hinv) f2
    refine ⟨List.replicate 6 h ++ more, fun i hi => ?_⟩
    rw [runSchedule_append]
    exact m1 i (List.mem_range.mpr hi)

theorem runSchedule_no_calls {υ : Type} (sched : List Nat) :
    ∀ (s : Shared υ), runSchedule [] sched s = s := by
  induction sched with
  | nil => intro s; rfl
  | cons i rest ih => intro s; simp [runSchedule, ih]

theorem registerAll_cons {υ : Type} (c : String × HandlerFunc υ)
    (rest : List (String × HandlerFunc υ)) (mux0 : SubjectMux υ) :
    registerAll (c :: rest) mux0 = registerAll rest (mux0.HandleFunc c.1 c.2).1 := rfl

theorem registerAll_get_not_mem {υ : Type} (calls : List (String × HandlerFunc υ)) :
    ∀ (mux0 : SubjectMux υ) k, k ∉ calls.map Prod.fst →
      (registerAll calls mux0).get k = mux0.get k := by
  induction calls with
  | nil => intro mux0 k _; rfl
  | cons c rest ih =>
    intro mux0 k hk
    simp only [List.map_cons, List.mem_cons, not_or] at hk
    rw [registerAll_cons, ih _ k hk.2, get_HandleFunc_ne mux0 c.1 k c.2 hk.1]

theorem registerAll_get_mem {υ : Type} (calls : List (String × HandlerFunc υ)) :
    ∀ (mux0 : SubjectMux υ), (∀ c ∈ calls, c.1 ≠ "" ∧ c.2.isSome = true) →
      (calls.map Prod.fst).Nodup → ∀ c ∈ calls,
      (registerAll calls mux0).get c.1 = some { h := c.2, subj := c.1 } := by
  induction calls with
  | nil => intro _ _ _ c hc; cases hc
  | cons c0 rest ih =>
    intro mux0 hvalid hnd c hc
    simp only [List.map_cons, List.nodup_cons] at hnd
    rw [registerAll_cons]
    by_cases hmem : c ∈ rest
    · exact ih _ (fun d hd => hvalid d (List.mem_cons_of_mem _ hd)) hnd.2 c hmem
    · have hcc : c = c0 := by
        rcases List.mem_cons.mp hc with h | h
        · exact h
        · exact absurd h hmem
      rw [hcc, registerAll_get_not_mem rest _ c0.1 hnd.1]
      obtain ⟨hs, hh⟩ := hvalid c0 (List.mem_cons_self _ _)
      obtain ⟨g, hg⟩ := Option.isSome_iff_exists.mp hh
      rw [hg]
      exact get_HandleFunc_self mux0 c0.1 g hs

theorem SubjectMux.ext_get {υ : Type} (A B : SubjectMux υ) (hget : ∀ k, A.get k = B.get k)
    (hnil : A.m = none ↔ B.m = none) : A = B := by
  cases A with
  | mk a =>
    cases B with
    | mk b =>
      cases a with
      | none =>
        have : b = none := hnil.mp rfl
        rw [this]
      | some ma =>
        cases b with
        | none =>
          have := hnil.mpr rfl
          cases this
        | some mb =>
          have : ma = mb := Finmap.ext_lookup (fun k => by simpa [SubjectMux.get] using hget k)
          rw [this]

theorem len_of_keys {υ : Type} (mux : SubjectMux υ) (l : List String) (hl : l.Nodup)
    (h : ∀ k, mux.get k ≠ none ↔ k ∈ l) : mux.len = l.length := by
  cases hm : mux.m with
  | none =>
    have hnil : l = [] := by
      apply List.eq_nil_iff_forall_not_mem.mpr
      intro k hk
      have := (h k).mpr hk
      simp [SubjectMux.get, hm] at this
    simp [SubjectMux.len, hm, hnil]
  | some m =>
    have hkeys : m.keys = l.toFinset := by
      ext k
      rw [Finmap.mem_keys, List.mem_toFinset, ← h k]
      simp only [SubjectMux.get, hm]
      rw [Ne, Finmap.lookup_eq_none, not_not]
    simp only [SubjectMux.len, hm]
    rw [hkeys, List.toFinset_card_of_nodup hl]

/-- A goroutine that runs `HandleFunc` alone, from the unlocked mutex, leaves what
the function `SubjectMux.HandleFunc` returns, also when the call panics: the same
mux, a panic exactly when the function panics, and the mutex unlocked again. -/
theorem HandleFuncStep_alone {υ : Type} (subj : String) (handler : HandlerFunc υ)
    (mux : SubjectMux υ) :
    (runSchedule [(subj, handler)] [0, 0, 0, 0, 0, 0] (Shared.start mux)).mux =
      (mux.HandleFunc subj handler).1 ∧
    (runSchedule [(subj, handler)] [0, 0, 0, 0, 0, 0] (Shared.start mux)).mu =
      sync.RWMutex.free ∧
    (runSchedule [(subj, handler)] [0, 0, 0, 0, 0, 0] (Shared.start mux)).pc 0 = Pc.done ∧
    ((runSchedule [(subj, handler)] [0, 0, 0, 0, 0, 0] (Shared.start mux)).panicked 0 = true ↔
      (mux.HandleFunc subj handler).2 ≠ none) := by
  by_cases hs : subj = ""
  · simp [runSchedule, HandleFuncStep, Shared.start, hs, sync.RWMutex.Lock, sync.RWMutex.free,
      sync.RWMutex.Unlock, SubjectMux.HandleFunc]
  · cases handler with
    | none =>
      simp [runSchedule, HandleFuncStep, Shared.start, hs, sync.RWMutex.Lock, sync.RWMutex.free,
        sync.RWMutex.Unlock, SubjectMux.HandleFunc]
    | some g =>
      cases hm : mux.m with
      | none =>
        simp [runSchedule, HandleFuncStep, Shared.start, hs, hm, sync.RWMutex.Lock,
          sync.RWMutex.free, sync.RWMutex.Unlock, SubjectMux.HandleFunc]
      | some m =>
        simp [runSchedule, HandleFuncStep, Shared.start, hs, hm, sync.RWMutex.Lock,
          sync.RWMutex.free, sync.RWMutex.Unlock, SubjectMux.HandleFunc]

/-- Why the mutex is needed: from a state in which two goroutines are both past
`mu.Lock()` on a nil registry, the interleaving test, test, make, store, make,
store loses the entry of the first goroutine, because the second `make` replaces
the map that already holds it. -/
theorem lost_update_without_exclusion :
    (runSchedule sampleCalls [0, 1, 0, 0, 1, 1] racyState).pc 0 = Pc.unlock ∧
    (runSchedule sampleCalls [0, 1, 0, 0, 1, 1] racyState).pc 1 = Pc.unlock ∧
    (runSchedule sampleCalls [0, 1, 0, 0, 1, 1] racyState).mux.get "billing" = none ∧
    (runSchedule sampleCalls [0, 1, 0, 0, 1, 1] racyState).mux.len = 1 := by
  refine ⟨by decide, by decide, ?_, by decide⟩
  rfl

/-- C13. Goroutines that register N pairwise distinct non-empty subjects with
non-nil handlers run `HandleFunc` concurrently, one statement at a time, in any
interleaving; `mu.Lock()` makes a goroutine wait while another holds the mutex.
After every schedule: some continuation lets all goroutines return (no deadlock);
at most one goroutine is inside the locked part; no call has panicked. And once
all goroutines have returned, the registry is the one that `SubjectMux.HandleFunc`
gives for the N calls made one after the other: every one of the N subjects has
its entry and resolves to the handler registered for it, every other subject is
as it was before, and a registry that started empty has exactly N entries. -/
theorem concurrent_registration {υ : Type} (V : nats.Verdict)
    (calls : List (String × HandlerFunc υ)) (mux0 : SubjectMux υ) (sched : List Nat)
    (hvalid : ∀ c ∈ calls, c.1 ≠ "" ∧ c.2.isSome = true)
    (hnd : (calls.map Prod.fst).Nodup) :
    (∃ more, ∀ i, i < calls.length →
      (runSchedule calls (sched ++ more) (Shared.start mux0)).pc i = Pc.done) ∧
    (∀ i j, ((runSchedule calls sched (Shared.start mux0)).pc i).idle = false →
      ((runSchedule calls sched (Shared.start mux0)).pc j).idle = false → i = j) ∧
    (∀ i, (runSchedule calls sched (Shared.start mux0)).panicked i = false) ∧
    ((∀ i, i < calls.length → (runSchedule calls sched (Shared.start mux0)).pc i = Pc.done) →
      (runSchedule calls sched (Shared.start mux0)).mux = registerAll calls mux0 ∧
      (∀ c ∈ calls,
        (runSchedule calls sched (Shared.start mux0)).mux.get c.1 =
          some { h := c.2, subj := c.1 } ∧
        (runSchedule calls sched (Shared.start mux0)).mux.handler V c.1 = c.2) ∧
      (∀ k, k ∉ calls.map Prod.fst →
        (runSchedule calls sched (Shared.start mux0)).mux.get k = mux0.get k) ∧
      (mux0.m = none →
        (runSchedule calls sched (Shared.start mux0)).mux.len = calls.length)) := by
  have hinv := Inv.run hvalid hnd sched (Shared.start mux0) (Inv.start calls mux0)
  refine ⟨?_, hinv.lk.excl, hinv.calm, ?_⟩
  · obtain ⟨more, hmore⟩ := progress hvalid hnd _ hinv
    refine ⟨more, fun i hi => ?_⟩
    rw [runSchedule_append]
    exact hmore i hi
  · intro hdone
    have hkept : ∀ c ∈ calls,
        (runSchedule calls sched (Shared.start mux0)).mux.get c.1 =
          some { h := c.2, subj := c.1 } := by
      intro c hc
      obtain ⟨i, hi⟩ := List.mem_iff_getElem?.mp hc
      have hlt : i < calls.length := (List.getElem?_eq_some.mp hi).1
      exact hinv.kept i c hi (Or.inr (hdone i hlt))
    refine ⟨?_, ?_, hinv.frame, ?_⟩
    · cases hcalls : calls with
      | nil =>
        subst hcalls
        rw [runSchedule_no_calls]
        rfl
      | cons c0 rest =>
        rw [← hcalls]
        have hc0 : c0 ∈ calls := by rw [hcalls]; exact List.mem_cons_self _ _
        apply SubjectMux.ext_get
        · intro k
          by_cases hk : k ∈ calls.map Prod.fst
          · obtain ⟨c, hc, rfl⟩ := List.mem_map.mp hk
            rw [hkept c hc, registerAll_get_mem calls mux0 hvalid hnd c hc]
          · rw [hinv.frame k hk, registerAll_get_not_mem calls mux0 k hk]
        · have h1 := hkept c0 hc0
          have h2 := registerAll_get_mem calls mux0 hvalid hnd c0 hc0
          constructor
          · intro hn
            simp [SubjectMux.get, hn] at h1
          · intro hn
            simp [SubjectMux.get, hn] at h2
    · intro c hc
      exact ⟨hkept c hc, handler_of_get V _ c.1 _ (hkept c hc)⟩
    · intro hfresh
      have hlen := len_of_keys (runSchedule calls sched (Shared.start mux0)).mux
        (calls.map Prod.fst) hnd (by
          intro k
          constructor
          · intro hk
            by_contra hmem
            apply hk
            rw [hinv.frame k hmem]
            simp [SubjectMux.get, hfresh]
          · intro hmem
            obtain ⟨c, hc, rfl⟩ := List.mem_map.mp hmem
            rw [hkept c hc]
            simp)
      rw [hlen, List.length_map]

/-- C13 for two goroutines that register `billing` and `audit` on a fresh mux
under a schedule in which the second takes the mutex first and the first keeps
trying meanwhile: both have returned, the registry is the one of the two calls
made in turn, both handlers resolve and there are two entries. -/
theorem concurrent_registration_witness :
    (∀ c ∈ sampleCalls, c.1 ≠ "" ∧ c.2.isSome = true) ∧
    (sampleCalls.map Prod.fst).Nodup ∧
    (∀ i, i < sampleCalls.length →
      (runSchedule sampleCalls sampleSchedule (Shared.start NewSubjectMux)).pc i = Pc.done) ∧
    (runSchedule sampleCalls sampleSchedule (Shared.start NewSubjectMux)).mux =
      registerAll sampleCalls NewSubjectMux ∧
    (runSchedule sampleCalls sampleSchedule (Shared.start NewSubjectMux)).mux.handler
      sampleVerdict "billing" = some addTen ∧
    (runSchedule sampleCalls sampleSchedule (Shared.start NewSubjectMux)).mux.handler
      sampleVerdict "audit" = some countCall ∧
    (runSchedule sampleCalls sampleSchedule (Shared.start NewSubjectMux)).mux.len = 2 := by
  have h := (concurrent_registration sampleVerdict sampleCalls NewSubjectMux sampleSchedule
    (by decide) (by decide)).2.2.2 (by decide)
  exact ⟨by decide, by decide, by decide, h.1,
    (h.2.1 ("billing", some addTen) (by simp [sampleCalls])).2,
    (h.2.1 ("audit", some countCall) (by simp [sampleCalls])).2, h.2.2.2 rfl⟩

end natsrr
